import Mathlib

/-!
# MTG-meta poller: a shallow embedding of `poller.go` and `data.go`

The Go program polls a tournament listing, fetches every unseen event's page,
extracts deck headers with a regular expression, fetches each deck's card list
and parses it into a main deck and a sideboard.

Modelling conventions.

* A Go `string` is modelled by its sequence of characters (`List Char`); all
  texts handled here are split and matched on ASCII delimiters only.
* Go `int` is 64 bits wide; `strconv.Atoi` saturates at the bounds of that range.
* The three patterns of `poller.go` are built from literals and capturing
  groups `(C+)` over a character class.  The matcher below is a backtracking
  matcher for exactly that fragment; it prefers longer repetitions first, which
  is the leftmost-first discipline of Go's `regexp` package.
* The outside world (HTTP, JSON decoding, the clock) is a parameter `World`.
-/

namespace MTGMeta

/-- Go `string`. -/
abbrev GoString := List Char

/-! ## data.go -/

/-- Calendar location of a `time.Time`. -/
inductive Location where
  | UTC
  | Local
deriving DecidableEq, Repr

/-- Value of Go's `time.Time`, kept as its civil fields in its location. -/
structure Time where
  Year : Int
  Month : Nat
  Day : Nat
  Hour : Nat
  Minute : Nat
  Second : Nat
  Nanosecond : Nat
  Loc : Location
deriving DecidableEq, Repr

/-- Zero value of `time.Time`: January 1, year 1, 00:00:00 UTC. -/
def Time.zero : Time := ⟨1, 1, 1, 0, 0, 0, 0, Location.UTC⟩

/-- Struct `Card` of `data.go`. -/
structure Card where
  Number : Int
  Name : GoString
deriving DecidableEq, Repr

/-- Struct `Deck` of `data.go`. -/
structure Deck where
  Format : GoString
  Date : Time
  EventID : GoString
  Pilot : GoString
  Result : GoString
  MainDeck : List Card
  Sideboard : List Card
deriving DecidableEq, Repr

/-- Struct `Event` of `data.go`. -/
structure Event where
  Format : GoString
  Date : Time
  EventID : GoString
  Decks : List Deck
deriving DecidableEq, Repr

/-- Struct `WotcEvent` of `data.go`: one entry of the remote listing. -/
structure WotcEvent where
  Date : GoString
  Hyperlink : GoString
  Name : GoString
deriving DecidableEq, Repr

/-- Type `WotcEventList` of `data.go`. -/
abbrev WotcEventList := List WotcEvent

/-! ## Library functions used by poller.go -/

/-- Go `strings.HasPrefix s pre`. -/
def startsWith : GoString → GoString → Bool
  | _, [] => true
  | [], _ :: _ => false
  | c :: s, a :: pre => if c = a then startsWith s pre else false

/-- Go `strings.Contains s substr`: `substr` occurs somewhere in `s`. -/
def Contains : GoString → GoString → Bool
  | [], substr => startsWith [] substr
  | c :: s, substr => startsWith (c :: s) substr || Contains s substr

/-- Scanning loop of `strings.Split` for a non-empty separator: `skip` counts the
characters of an already recognised separator that are still to be passed over,
`cur` is the piece collected since the last separator. -/
def splitLoop (sep : GoString) : Nat → GoString → GoString → List GoString
  | _, cur, [] => [cur]
  | skip + 1, cur, _ :: s => splitLoop sep skip cur s
  | 0, cur, c :: s =>
    if startsWith (c :: s) sep then cur :: splitLoop sep (sep.length - 1) [] s
    else splitLoop sep 0 (cur ++ [c]) s

/-- Go `strings.Split s sep`.  With an empty separator the text is exploded into
its characters. -/
def Split (s sep : GoString) : List GoString :=
  if sep = [] then s.map (fun c => [c]) else splitLoop sep 0 [] s

/-- Character class `\d` of Go's `regexp`: an ASCII decimal digit. -/
def isDigit (c : Char) : Bool := decide ('0' ≤ c) && decide (c ≤ '9')

/-- Character class `\S` of Go's `regexp`: anything but tab, line feed, form feed,
carriage return and space. -/
def isNonSpace (c : Char) : Bool :=
  !(c = '\t' || c = '\n' || c = '\x0c' || c = '\r' || c = ' ')

/-- Character class `.` of Go's `regexp` (without the `s` flag): anything but a
line feed. -/
def isDot (c : Char) : Bool := !(c = '\n')

/-- Numeric value of a decimal digit character. -/
def digitVal (c : Char) : Nat := c.toNat - '0'.toNat

/-- Value of a string of decimal digits, most significant digit first. -/
def decimalValue (s : GoString) : Nat := s.foldl (fun n c => n * 10 + digitVal c) 0

/-- Largest value of Go's 64-bit `int`. -/
def maxInt : Int := 2 ^ 63 - 1

/-- Smallest value of Go's 64-bit `int`. -/
def minInt : Int := -(2 ^ 63)

/-- Unsigned body of `strconv.Atoi`: `none` is the syntax error. -/
def atoiBody (s : GoString) : Option Nat :=
  if s ≠ [] ∧ s.all isDigit = true then some (decimalValue s) else none

/-- Go `strconv.Atoi` with its error result dropped (the caller writes `num, _ :=`).
A syntax error yields 0; a value outside the `int` range yields the nearest bound. -/
def Atoi (s : GoString) : Int :=
  match s with
  | '-' :: t =>
    match atoiBody t with
    | some v => if (v : Int) > 2 ^ 63 then minInt else -(v : Int)
    | none => 0
  | '+' :: t =>
    match atoiBody t with
    | some v => if (v : Int) > maxInt then maxInt else (v : Int)
    | none => 0
  | _ =>
    match atoiBody s with
    | some v => if (v : Int) > maxInt then maxInt else (v : Int)
    | none => 0

/-! ## Regular expressions -/

/-- One element of a pattern: a literal text, or a capturing group `(C+)` that
repeats a character class one or more times, greedily. -/
inductive Item where
  | lit (s : GoString)
  | capPlus (cls : Char → Bool)

/-- Compiled pattern: its elements in sequence. -/
abbrev Regexp := List Item

/-- Consume the literal `l` from the front of the input. -/
def stripLit : GoString → GoString → Option GoString
  | [], s => some s
  | _ :: _, [] => none
  | a :: l, c :: s => if a = c then stripLit l s else none

/-- Greedy `(C+)` followed by the continuation `k`: `acc` holds the characters
already taken by the group.  Taking one more character is tried before stopping,
so the longest repetition after which `k` succeeds wins. -/
def plusLoop (cls : Char → Bool) (k : GoString → Option (List GoString × GoString)) :
    GoString → GoString → Option (List GoString × GoString)
  | _, [] => none
  | acc, c :: s =>
    if cls c then
      match plusLoop cls k (acc ++ [c]) s with
      | some r => some r
      | none =>
        match k s with
        | some (caps, rest) => some ((acc ++ [c]) :: caps, rest)
        | none => none
    else none

/-- Match the pattern at the very start of the input.  The result holds the
texts of the capturing groups, in order, and the input left after the match. -/
def matchHere : Regexp → GoString → Option (List GoString × GoString)
  | [], s => some ([], s)
  | Item.lit l :: re, s =>
    match stripLit l s with
    | some s1 => matchHere re s1
    | none => none
  | Item.capPlus cls :: re, s => plusLoop cls (matchHere re) [] s

/-- Match at the start of the input and return the submatch slice
`[whole match, group 1, group 2, ...]` together with the input left over. -/
def matchAt (re : Regexp) (s : GoString) : Option (List GoString × GoString) :=
  match matchHere re s with
  | some (caps, rest) => some (s.take (s.length - rest.length) :: caps, rest)
  | none => none

/-- Go `(*Regexp).FindStringSubmatch`: the submatch slice of the leftmost match,
or the empty (nil) slice when nothing matches. -/
def FindStringSubmatch (re : Regexp) : GoString → List GoString
  | [] =>
    match matchAt re [] with
    | some (m, _) => m
    | none => []
  | c :: s =>
    match matchAt re (c :: s) with
    | some (m, _) => m
    | none => FindStringSubmatch re s

/-- Loop of Go's `(*Regexp).allMatches`.  `skip` counts the characters of the
previous match still to be passed over; `prevEnd` tells that a match ended at the
current position, where an empty match is not accepted. -/
def allMatches (re : Regexp) : Nat → Bool → GoString → List (List GoString)
  | _ + 1, _, [] => []
  | skip + 1, prevEnd, _ :: s => allMatches re skip prevEnd s
  | 0, prevEnd, [] =>
    match matchAt re [] with
    | some (m, _) => if prevEnd then [] else [m]
    | none => []
  | 0, prevEnd, c :: s =>
    match matchAt re (c :: s) with
    | none => allMatches re 0 false s
    | some (m, rest) =>
      if (c :: s).length - rest.length = 0 then
        (if prevEnd then [] else [m]) ++ allMatches re 0 false s
      else m :: allMatches re ((c :: s).length - rest.length - 1) true s

/-- Go `(*Regexp).FindAllStringSubmatch s (-1)`: the submatch slices of all
successive non-overlapping matches. -/
def FindAllStringSubmatch (re : Regexp) (s : GoString) : List (List GoString) :=
  allMatches re 0 false s

/-! ## Calendar arithmetic of `time.Date` -/

/-- Gregorian leap-year rule. -/
def isLeap (y : Int) : Bool := y % 4 = 0 && (y % 100 ≠ 0 || y % 400 = 0)

/-- Number of days of month `m` (1 to 12) in year `y`. -/
def daysIn (y : Int) (m : Nat) : Nat :=
  if m = 2 then (if isLeap y then 29 else 28)
  else if m = 4 ∨ m = 6 ∨ m = 9 ∨ m = 11 then 30
  else 31

/-- Carry a day count that lies outside its month into the neighbouring months,
one month at a time.  `fuel` bounds the number of months walked. -/
def normDay : Nat → Int → Nat → Int → Int × Nat × Nat
  | 0, y, m, d => (y, m, d.toNat)
  | fuel + 1, y, m, d =>
    if d < 1 then
      (if m ≤ 1 then normDay fuel (y - 1) 12 (d + (daysIn (y - 1) 12 : Nat))
       else normDay fuel y (m - 1) (d + (daysIn y (m - 1) : Nat)))
    else if d > (daysIn y m : Nat) then
      (if m ≥ 12 then normDay fuel (y + 1) 1 (d - (daysIn y m : Nat))
       else normDay fuel y (m + 1) (d - (daysIn y m : Nat)))
    else (y, m, d.toNat)

/-- Year of the absolute epoch of Go's `time` package, from which it counts
seconds in an unsigned 64-bit word. -/
def absoluteZeroYear : Int := -292277022399

/-- Table `daysBefore` of Go's `time` package: the days of a non-leap year before
the month with the given index, counted from 0. -/
def daysBefore : Nat → Nat
  | 0 => 0
  | 1 => 31
  | 2 => 59
  | 3 => 90
  | 4 => 120
  | 5 => 151
  | 6 => 181
  | 7 => 212
  | 8 => 243
  | 9 => 273
  | 10 => 304
  | 11 => 334
  | _ => 365

/-- Function `daysSinceEpoch` of Go's `time` package: the days from the absolute
epoch to January 1 of the year, in unsigned 64-bit arithmetic. -/
def daysSinceEpoch (year : Int) : Nat :=
  let y := ((year - absoluteZeroYear) % 2 ^ 64).toNat
  let n400 := y / 400
  let y1 := y - 400 * n400
  let n100 := y1 / 100
  let y2 := y1 - 100 * n100
  let n4 := y2 / 4
  let y3 := y2 - 4 * n4
  (146097 * n400 + 36524 * n100 + 1461 * n4 + 365 * y3) % 2 ^ 64

/-- Function `absDate` of Go's `time` package: year, month and day of a count of
seconds since the absolute epoch. -/
def absDate (abs : Nat) : Int × Nat × Nat :=
  let d0 := abs / 86400
  let n400 := d0 / 146097
  let d1 := d0 - 146097 * n400
  let c100 := d1 / 36524
  let n100 := c100 - c100 / 4
  let d2 := d1 - 36524 * n100
  let n4 := d2 / 1461
  let d3 := d2 - 1461 * n4
  let c1 := d3 / 365
  let n1 := c1 - c1 / 4
  let yday := d3 - 365 * n1
  let year : Int := ((400 * n400 + 100 * n100 + 4 * n4 + n1 : Nat) : Int) + absoluteZeroYear
  if isLeap year && decide (yday = 59) then (year, 2, 29)
  else
    let day := if isLeap year && decide (yday > 59) then yday - 1 else yday
    let m := day / 31
    if day ≥ daysBefore (m + 1) then (year, m + 2, day - daysBefore (m + 1) + 1)
    else (year, m + 1, day - daysBefore m + 1)

/-- Body of Go's `time.Date` after the month has been normalised into 1 to 12:
the seconds since the absolute epoch are computed in unsigned 64-bit arithmetic,
wrapping where they do not fit, and read back as a date and a time of day. -/
def dateAbs (year : Int) (month : Nat) (day : Int) : Time :=
  let d := (daysSinceEpoch year + daysBefore (month - 1)
    + (if isLeap year && decide (month ≥ 3) then 1 else 0)
    + ((day - 1) % 2 ^ 64).toNat) % 2 ^ 64
  let abs := d * 86400 % 2 ^ 64
  let ymd := absDate abs
  let s := abs % 86400
  ⟨ymd.1, ymd.2.1, ymd.2.2, s / 3600, s % 3600 / 60, s % 60, 0, Location.UTC⟩

/-- Go `time.Date(year, month, day, 0, 0, 0, 0, time.UTC)`.  Month and day may lie
outside their usual ranges and are normalised: the month overflows into the year,
the day into the months.  For a month and a day below 2^31 in absolute value no
64-bit word of Go's computation wraps for the year of any clock reading, and the
result is the calendar date, found by walking the months.  Beyond that bound,
which the saturated results of `Atoi` reach, Go's own arithmetic is followed,
with its wrap at 64 bits. -/
def Date (year month day : Int) : Time :=
  let y := year + (month - 1) / 12
  let m := ((month - 1) % 12).toNat + 1
  if month.natAbs < 2 ^ 31 ∧ day.natAbs < 2 ^ 31 then
    let r := normDay (day.natAbs + 1) y m day
    ⟨r.1, r.2.1, r.2.2, 0, 0, 0, 0, Location.UTC⟩
  else dateAbs y m day

/-! ## poller.go -/

/-- The world outside the program: the HTTP client, the JSON decoder of the
listing payload and the clock.  The world is taken to be unchanged during one
call of `GetNewEvents`. -/
structure World where
  /-- Body returned for a URL by `http.Get` followed by `ioutil.ReadAll`, or
  `none` when either step reports an error. -/
  httpGet : GoString → Option GoString
  /-- Result of `json.Unmarshal` into a `WotcEventList`, or `none` on a decode error. -/
  jsonUnmarshal : GoString → Option WotcEventList
  /-- Value of `time.Now()`. -/
  now : Time

/-- Printing of an `int` by the verb `%v`. -/
def fmtInt (n : Int) : GoString := (toString n).toList

/-- Text of `fmt.Sprintf(WotcEventListUrl, start)`. -/
def WotcEventListUrl (start : Int) : GoString :=
  "https://www.wizards.com/handlers/XMLListService.ashx?dir=mtgo&type=XMLFileInfo&start=".toList
    ++ fmtInt start

/-- Text of `fmt.Sprintf(WotcEventPageUrl, eventID)`. -/
def WotcEventPageUrl (eventID : GoString) : GoString :=
  "https://www.wizards.com/Magic/Digital/MagicOnlineTourn.aspx?x=mtg/digital/magiconline/tourn/".toList
    ++ eventID

/-- Text of `fmt.Sprintf(WotcDeckUrl, eventID, deckNum)`. -/
def WotcDeckUrl (eventID : GoString) (deckNum : Int) : GoString :=
  "https://www.wizards.com/magic/.dek?x=mtg/digital/magiconline/tourn/".toList
    ++ eventID ++ "&decknum=".toList ++ fmtInt deckNum

/-- Pattern `<heading>(\S+) \((.+)\)</heading>`. -/
def DeckHeaderReg : Regexp :=
  [Item.lit "<heading>".toList, Item.capPlus isNonSpace, Item.lit " (".toList,
   Item.capPlus isDot, Item.lit ")</heading>".toList]

/-- Pattern `(\d+) (.+)`. -/
def CardListReg : Regexp :=
  [Item.capPlus isDigit, Item.lit " ".toList, Item.capPlus isDot]

/-- Pattern `(\d+)/(\d+)`. -/
def EventDateReg : Regexp :=
  [Item.capPlus isDigit, Item.lit "/".toList, Item.capPlus isDigit]

/-- Function `GetPageContent`: the body, or `none` for the error result. -/
def GetPageContent (w : World) (url : GoString) : Option GoString := w.httpGet url

/-- Conversion `string(body)` of the byte slice left by `body, _ := GetPageContent(..)`:
on an error the slice is nil and the text empty. -/
def bodyText (r : Option GoString) : GoString := r.getD []

/-- Function `GetEventList`: a payload that does not decode gives the nil list. -/
def GetEventList (w : World) (daysToRetrieve : Int) : WotcEventList :=
  let body := bodyText (GetPageContent w (WotcEventListUrl daysToRetrieve))
  match w.jsonUnmarshal body with
  | some list => list
  | none => []

/-- Function `ParseEventFormat`. -/
def ParseEventFormat (eventName : GoString) : GoString :=
  if Contains eventName "Standard".toList then "Standard".toList
  else if Contains eventName "Modern".toList then "Modern".toList
  else if Contains eventName "Pauper".toList then "Pauper".toList
  else if Contains eventName "Classic".toList then "Classic".toList
  else if Contains eventName "Sealed RTR Block".toList then "RTR Block Sealed".toList
  else if Contains eventName "RTR Block".toList then "RTR Block".toList
  else eventName

/-- Function `ParseEventDate`, reading the clock from the world. -/
def ParseEventDate (w : World) (eventDate : GoString) : Time :=
  let m := FindStringSubmatch EventDateReg eventDate
  if m.length = 3 then
    let month := Atoi (m.getD 1 [])
    let day := Atoi (m.getD 2 [])
    Date w.now.Year month day
  else w.now

/-- Lines 118 to 121 of `ParseDeckList`: the card read from one line, if the
pattern matches. -/
def parseCardLine (line : GoString) : Option Card :=
  let m := FindStringSubmatch CardListReg line
  if m.length = 3 then
    let num := Atoi (m.getD 1 [])
    some ⟨num, m.getD 2 []⟩
  else none

/-- State of the loop of `ParseDeckList`. -/
structure DeckListState where
  maindeck : List Card
  sideboard : List Card
  inSideboard : Bool
deriving DecidableEq, Repr

/-- One iteration of the loop of `ParseDeckList`. -/
def deckListStep (st : DeckListState) (line : GoString) : DeckListState :=
  if line.length = 0 then { st with inSideboard := true }
  else
    match parseCardLine line with
    | some c =>
      if st.inSideboard then { st with sideboard := st.sideboard ++ [c] }
      else { st with maindeck := st.maindeck ++ [c] }
    | none => st

/-- Function `ParseDeckList`: main deck and sideboard. -/
def ParseDeckList (listText : GoString) : List Card × List Card :=
  let st := (Split listText "\r\n".toList).foldl deckListStep ⟨[], [], false⟩
  (st.maindeck, st.sideboard)

/-- Function `GetDeckList`. -/
def GetDeckList (w : World) (eventID : GoString) (deckNum : Int) : GoString :=
  bodyText (GetPageContent w (WotcDeckUrl eventID deckNum))

/-- Lines 91 to 96 of `GetDeckHeaders`: the deck made from one submatch slice,
if it has its three entries. -/
def deckOfMatch (m : List GoString) : Option Deck :=
  if m.length = 3 then
    some ⟨[], Time.zero, [], m.getD 1 [], m.getD 2 [], [], []⟩
  else none

/-- Lines 87 to 99 of `GetDeckHeaders`: the decks read from the text of the page. -/
def deckHeadersOf (page : GoString) : List Deck :=
  let headers := FindAllStringSubmatch DeckHeaderReg page
  headers.filterMap deckOfMatch

/-- Function `GetDeckHeaders`. -/
def GetDeckHeaders (w : World) (eventID : GoString) : List Deck :=
  deckHeadersOf (bodyText (GetPageContent w (WotcEventPageUrl eventID)))

/-- Loop of `GetEventDecks` from index `i` on. -/
def eventDecksLoop (w : World) (ev : Event) : Nat → List Deck → List Deck
  | _, [] => []
  | i, deck :: decks =>
    let listText := GetDeckList w ev.EventID ((i : Int) + 1)
    let r := ParseDeckList listText
    { deck with Format := ev.Format, Date := ev.Date, EventID := ev.EventID,
                MainDeck := r.1, Sideboard := r.2 } :: eventDecksLoop w ev (i + 1) decks

/-- Function `GetEventDecks`. -/
def GetEventDecks (w : World) (ev : Event) : List Deck :=
  eventDecksLoop w ev 0 (GetDeckHeaders w ev.EventID)

/-- Body of the loop of `GetNewEvents` for an entry that is not skipped. -/
def newEvent (w : World) (evLink : WotcEvent) : Event :=
  let ev : Event := ⟨ParseEventFormat evLink.Name, ParseEventDate w evLink.Date, evLink.Hyperlink, []⟩
  { ev with Decks := GetEventDecks w ev }

/-- Function `GetNewEvents`.  The map `knownEvents` is read only through lookups,
which give `false` for an absent key. -/
def GetNewEvents (w : World) (knownEvents : GoString → Bool) (daysToRetrieve : Int) : List Event :=
  (GetEventList w daysToRetrieve).filterMap (fun evLink =>
    if knownEvents evLink.Hyperlink then none else some (newEvent w evLink))

/-! ## Notions of the specification -/

/-- Lines of the main-deck section, in the specification's words: the lines
before the first empty line. -/
def mainDeckLines (lines : List GoString) : List GoString :=
  lines.takeWhile (fun line => decide (line ≠ []))

/-- Lines of the sideboard section, in the specification's words: all lines
after the first empty line. -/
def sideboardLines (lines : List GoString) : List GoString :=
  (lines.dropWhile (fun line => decide (line ≠ []))).drop 1

/-- Text that contains, somewhere, one or more decimal digits, one space and a
character other than line feed. -/
def hasCardShape (line : GoString) : Prop :=
  ∃ pre ds c post, ds ≠ [] ∧ (∀ x ∈ ds, isDigit x = true) ∧ c ≠ '\n' ∧
    line = pre ++ ds ++ ' ' :: c :: post

/-- Whole line of the shape COUNT NAME, in the specification's words: one or more
decimal digits, then one space, then a non-empty remainder. -/
def isCountName (line : GoString) : Bool :=
  let ds := line.takeWhile isDigit
  let tail := line.dropWhile isDigit
  !ds.isEmpty && tail.head? = some ' ' && decide (2 ≤ tail.length)

/-- Text that contains a substring of the shape digits, slash, digits. -/
def hasDateShape (s : GoString) : Prop :=
  ∃ pre d1 d2 post, d1 ≠ [] ∧ (∀ x ∈ d1, isDigit x = true) ∧ d2 ≠ [] ∧
    (∀ x ∈ d2, isDigit x = true) ∧ s = pre ++ d1 ++ '/' :: d2 ++ post

/-- A world in which every request fails and whose clock shows noon of
June 1, 2023, local time. -/
def offlineWorld : World :=
  ⟨fun _ => none, fun _ => none, ⟨2023, 6, 1, 12, 0, 0, 0, Location.Local⟩⟩

/-- Heading fragment `<heading>PILOT (RESULT)</heading>`. -/
def headingFragment (pilot result : GoString) : GoString :=
  "<heading>".toList ++ pilot ++ " (".toList ++ result ++ ")</heading>".toList

/-- Heading fragment without the parenthesized result, `<heading>PILOT</heading>`. -/
def malformedFragment (pilot : GoString) : GoString :=
  "<heading>".toList ++ pilot ++ "</heading>".toList

/-- Page made of the heading fragments of the given (pilot, result) pairs,
concatenated directly. -/
def pageOf : List (GoString × GoString) → GoString
  | [] => []
  | h :: hs => headingFragment h.1 h.2 ++ pageOf hs

/-- Page made of the heading fragments of the given (pilot, result) pairs, each
followed by a line feed. -/
def pageOfLines : List (GoString × GoString) → GoString
  | [] => []
  | h :: hs => headingFragment h.1 h.2 ++ '\n' :: pageOfLines hs

/-- The (Pilot, Result) pairs of a sequence of decks. -/
def headerPairs (decks : List Deck) : List (GoString × GoString) :=
  decks.map (fun d => (d.Pilot, d.Result))

/-- A world that answers every request with the same page. -/
def servingWorld (page : GoString) : World :=
  ⟨fun _ => some page, fun _ => none, ⟨2023, 6, 1, 12, 0, 0, 0, Location.Local⟩⟩

/-- A world whose listing decodes to the given entries while every request for a
page fails. -/
def listingWorld (entries : WotcEventList) : World :=
  ⟨fun _ => none, fun _ => some entries, ⟨2023, 6, 1, 12, 0, 0, 0, Location.Local⟩⟩

/-- A listing of two entries, used as a concrete remote listing. -/
def sampleListing : WotcEventList :=
  [⟨"1/2".toList, "evtA".toList, "Standard Daily".toList⟩,
   ⟨"1/3".toList, "evtB".toList, "Modern Daily".toList⟩]

/-- The known set that holds the two events of `sampleListing`. -/
def sampleKnown (id : GoString) : Bool := decide (id ∈ ["evtA".toList, "evtB".toList])

/-- A world that answers every page request with the same page and whose listing
decodes to the given entries. -/
def fullWorld (entries : WotcEventList) (page : GoString) : World :=
  ⟨fun _ => some page, fun _ => some entries, ⟨2023, 6, 1, 12, 0, 0, 0, Location.Local⟩⟩

/-- A world with one event "ev" of three decks, in which the card list of deck 2
cannot be fetched. -/
def threeDeckWorld : World :=
  ⟨fun url =>
      if url = WotcEventPageUrl "ev".toList then
        some (pageOfLines [("Ann".toList, "5-0".toList), ("Bob".toList, "4-1".toList),
          ("Cid".toList, "3-2".toList)])
      else if url = WotcDeckUrl "ev".toList 1 then some "4 Lightning Bolt".toList
      else if url = WotcDeckUrl "ev".toList 3 then some "2 Opt\r\n\r\n3 Negate".toList
      else none,
   fun _ => none, ⟨2023, 6, 1, 12, 0, 0, 0, Location.Local⟩⟩

/-- The event "ev" before its decks are fetched. -/
def sampleEvent : Event := ⟨"Standard".toList, ⟨2023, 1, 2, 0, 0, 0, 0, Location.UTC⟩, "ev".toList, []⟩

/-! # Theorems -/

/-! ## The card-list loop -/

theorem parseCardLine_nil : parseCardLine [] = none := by decide

theorem deckListStep_nil (st : DeckListState) :
    deckListStep st [] = { st with inSideboard := true } := by
  simp [deckListStep]

theorem deckListStep_cons (st : DeckListState) (c : Char) (s : GoString) :
    deckListStep st (c :: s) =
      match parseCardLine (c :: s) with
      | some card =>
        if st.inSideboard then { st with sideboard := st.sideboard ++ [card] }
        else { st with maindeck := st.maindeck ++ [card] }
      | none => st := by
  simp [deckListStep]

theorem foldl_deckListStep_side (lines : List GoString) (main side : List Card) :
    lines.foldl deckListStep ⟨main, side, true⟩ =
      ⟨main, side ++ lines.filterMap parseCardLine, true⟩ := by
  induction lines generalizing side with
  | nil => simp
  | cons line rest ih =>
    cases line with
    | nil => simp [deckListStep_nil, ih, parseCardLine_nil]
    | cons c s =>
      rw [List.foldl_cons, deckListStep_cons]
      cases h : parseCardLine (c :: s) with
      | none => simp [ih, h]
      | some card => simp [ih, h]

theorem foldl_deckListStep_main (lines : List GoString) (main side : List Card) :
    lines.foldl deckListStep ⟨main, side, false⟩ =
      ⟨main ++ (mainDeckLines lines).filterMap parseCardLine,
       side ++ (sideboardLines lines).filterMap parseCardLine,
       decide (sideboardLines lines ≠ [] ∨ mainDeckLines lines ≠ lines)⟩ := by
  induction lines generalizing main with
  | nil => simp [mainDeckLines, sideboardLines]
  | cons line rest ih =>
    cases line with
    | nil =>
      simp [deckListStep_nil, foldl_deckListStep_side, mainDeckLines, sideboardLines]
    | cons c s =>
      rw [List.foldl_cons, deckListStep_cons]
      cases h : parseCardLine (c :: s) with
      | none =>
        simp only [ih]
        simp [mainDeckLines, sideboardLines, h]
      | some card =>
        simp only [Bool.false_eq_true, if_false, ih]
        simp [mainDeckLines, sideboardLines, h]

/-- C1: `ParseDeckList` partitions the cards at the first blank line.  With the
text split on "\r\n", the main deck is the cards parsed, in order, from the lines
before the first empty line and the sideboard is the cards parsed, in order, from
all lines after it, further empty lines included; the worked example of the
specification gives two main-deck cards and one sideboard card. -/
theorem C1_parseDeckList_partition :
    (∀ listText : GoString,
      ParseDeckList listText =
        ((mainDeckLines (Split listText "\r\n".toList)).filterMap parseCardLine,
         (sideboardLines (Split listText "\r\n".toList)).filterMap parseCardLine)) ∧
    ParseDeckList "4 Lightning Bolt\r\n2 Opt\r\n\r\n3 Negate".toList =
      ([⟨4, "Lightning Bolt".toList⟩, ⟨2, "Opt".toList⟩], [⟨3, "Negate".toList⟩]) := by
  refine ⟨fun listText => ?_, by decide⟩
  simp [ParseDeckList, foldl_deckListStep_main]

/-! ## The matcher -/

theorem stripLit_append (l r : GoString) : stripLit l (l ++ r) = some r := by
  induction l with
  | nil => cases r <;> rfl
  | cons a l ih => simp [stripLit, ih]

theorem stripLit_some {l s r : GoString} (h : stripLit l s = some r) : s = l ++ r := by
  induction l generalizing s with
  | nil =>
    cases s <;> simp [stripLit] at h <;> simp [h]
  | cons a l ih =>
    cases s with
    | nil => simp [stripLit] at h
    | cons c s =>
      simp only [stripLit] at h
      split at h
      · next hac => rw [hac, ih h]; rfl
      · cases h

theorem plusLoop_nil (cls : Char → Bool) (k : GoString → Option (List GoString × GoString))
    (acc : GoString) : plusLoop cls k acc [] = none := by
  cases acc <;> rfl

theorem plusLoop_cons_not (cls : Char → Bool) (k : GoString → Option (List GoString × GoString))
    (acc : GoString) (c : Char) (s : GoString) (hc : cls c = false) :
    plusLoop cls k acc (c :: s) = none := by
  simp [plusLoop, hc]

theorem plusLoop_cons (cls : Char → Bool) (k : GoString → Option (List GoString × GoString))
    (acc : GoString) (c : Char) (s : GoString) :
    plusLoop cls k acc (c :: s) =
      if cls c = true then
        match plusLoop cls k (acc ++ [c]) s with
        | some r => some r
        | none =>
          match k s with
          | some (caps, rest) => some ((acc ++ [c]) :: caps, rest)
          | none => none
      else none := by
  rw [plusLoop]

/-- What a successful `(C+)` has consumed: a non-empty run of the class, after
which the continuation succeeded. -/
theorem plusLoop_some {cls : Char → Bool} {k : GoString → Option (List GoString × GoString)}
    {acc s : GoString} {r : List GoString × GoString} (h : plusLoop cls k acc s = some r) :
    ∃ run tail caps, run ≠ [] ∧ (∀ c ∈ run, cls c = true) ∧ s = run ++ tail ∧
      k tail = some (caps, r.2) ∧ r.1 = (acc ++ run) :: caps := by
  induction s generalizing acc with
  | nil => simp [plusLoop_nil] at h
  | cons c s ih =>
    simp only [plusLoop] at h
    split at h
    · next hc =>
      split at h
      · next r1 h1 =>
        cases h
        obtain ⟨run, tail, caps, _, hall, hs, hk, hr⟩ := ih h1
        refine ⟨c :: run, tail, caps, by simp, ?_, by simp [hs], hk, by simp [hr]⟩
        intro x hx
        rcases List.mem_cons.1 hx with hx | hx
        · rw [hx]; exact hc
        · exact hall x hx
      · split at h
        · next caps rest hk =>
          cases h
          exact ⟨[c], s, caps, by simp, by simpa using hc, by simp, hk, rfl⟩
        · cases h
    · cases h

/-- The greedy choice: a run of the class after which no longer repetition
succeeds, while the continuation succeeds right after the run, is what `(C+)` takes. -/
theorem plusLoop_run (cls : Char → Bool) (k : GoString → Option (List GoString × GoString))
    (run acc tail : GoString) {caps : List GoString} {rest : GoString}
    (hne : run ≠ []) (hall : ∀ c ∈ run, cls c = true)
    (hmore : plusLoop cls k (acc ++ run) tail = none) (hk : k tail = some (caps, rest)) :
    plusLoop cls k acc (run ++ tail) = some ((acc ++ run) :: caps, rest) := by
  induction run generalizing acc with
  | nil => exact absurd rfl hne
  | cons c run ih =>
    have hc : cls c = true := hall c (List.mem_cons_self _ _)
    have hall1 : ∀ x ∈ run, cls x = true := fun x hx => hall x (List.mem_cons_of_mem _ hx)
    cases run with
    | nil =>
      rw [List.singleton_append, plusLoop_cons, if_pos hc, hmore, hk]
    | cons d run =>
      have hmore1 : plusLoop cls k ((acc ++ [c]) ++ (d :: run)) tail = none := by
        simpa using hmore
      have := ih (acc ++ [c]) (by simp) hall1 hmore1
      rw [List.cons_append, plusLoop_cons, if_pos hc, this]
      simp

/-- A class character in front of a continuation that always succeeds is matched. -/
theorem plusLoop_isSome (cls : Char → Bool) (k : GoString → Option (List GoString × GoString))
    (acc : GoString) (c : Char) (s : GoString) (hc : cls c = true)
    (hk : ∀ t, (k t).isSome = true) : (plusLoop cls k acc (c :: s)).isSome = true := by
  simp only [plusLoop, hc, if_true]
  split
  · rfl
  · have := hk s
    split
    · rfl
    · next h => simp [h] at this

/-- Two ways of cutting a text at its first character outside a class agree. -/
theorem span_unique {cls : Char → Bool} {xs ys : GoString} {a b : Char} {s t : GoString}
    (hxs : ∀ c ∈ xs, cls c = true) (hys : ∀ c ∈ ys, cls c = true)
    (ha : cls a = false) (hb : cls b = false) (h : xs ++ a :: s = ys ++ b :: t) :
    xs = ys ∧ a = b ∧ s = t := by
  induction xs generalizing ys with
  | nil =>
    cases ys with
    | nil => simpa using h
    | cons y ys =>
      simp only [List.nil_append, List.cons_append, List.cons.injEq] at h
      have := hys y (List.mem_cons_self _ _)
      rw [← h.1, ha] at this
      cases this
  | cons x xs ih =>
    cases ys with
    | nil =>
      simp only [List.nil_append, List.cons_append, List.cons.injEq] at h
      have := hxs x (List.mem_cons_self _ _)
      rw [h.1, hb] at this
      cases this
    | cons y ys =>
      simp only [List.cons_append, List.cons.injEq] at h
      obtain ⟨h1, h2, h3⟩ := ih (fun c hc => hxs c (List.mem_cons_of_mem _ hc))
        (fun c hc => hys c (List.mem_cons_of_mem _ hc)) h.2
      exact ⟨by rw [h.1, h1], h2, h3⟩

theorem matchAt_none {re : Regexp} {s : GoString} (h : matchHere re s = none) :
    matchAt re s = none := by
  simp [matchAt, h]

theorem matchAt_some {re : Regexp} {s : GoString} {caps : List GoString} {rest : GoString}
    (h : matchHere re s = some (caps, rest)) :
    matchAt re s = some (s.take (s.length - rest.length) :: caps, rest) := by
  simp [matchAt, h]

/-- A match at the very start of the text is the leftmost match. -/
theorem FindStringSubmatch_of_matchHere {re : Regexp} {s : GoString} {caps : List GoString}
    {rest : GoString} (h : matchHere re s = some (caps, rest)) :
    FindStringSubmatch re s = s.take (s.length - rest.length) :: caps := by
  cases s with
  | nil => simp [FindStringSubmatch, matchAt_some h]
  | cons c s => simp [FindStringSubmatch, matchAt_some h]

/-- Nothing is found exactly when the pattern matches at no position. -/
theorem FindStringSubmatch_eq_nil_iff (re : Regexp) (s : GoString) :
    FindStringSubmatch re s = [] ↔ ∀ pre t, s = pre ++ t → matchHere re t = none := by
  induction s with
  | nil =>
    constructor
    · intro h pre t hs
      have ht : t = [] := by
        cases pre with
        | nil => simpa using hs.symm
        | cons a pre => simp at hs
      subst ht
      cases hm : matchHere re [] with
      | none => rfl
      | some r => simp [FindStringSubmatch, matchAt, hm] at h
    · intro h
      simp [FindStringSubmatch, matchAt_none (h [] [] rfl)]
  | cons c s ih =>
    constructor
    · intro h pre t hs
      cases hm : matchHere re (c :: s) with
      | some r => simp [FindStringSubmatch, matchAt, hm] at h
      | none =>
        simp only [FindStringSubmatch, matchAt_none hm] at h
        cases pre with
        | nil =>
          simp only [List.nil_append] at hs
          rw [← hs]; exact hm
        | cons a pre =>
          simp only [List.cons_append, List.cons.injEq] at hs
          exact ih.1 h pre t hs.2
    · intro h
      have hm := h [] (c :: s) rfl
      simp only [FindStringSubmatch, matchAt_none hm]
      exact ih.2 (fun pre t hs => h (c :: pre) t (by simp [hs]))

/-- What is found, when something is found: the submatch slice of a match at
some position of the text. -/
theorem FindStringSubmatch_ne_nil {re : Regexp} {s : GoString}
    (h : FindStringSubmatch re s ≠ []) :
    ∃ pre t caps rest, s = pre ++ t ∧ matchHere re t = some (caps, rest) ∧
      FindStringSubmatch re s = t.take (t.length - rest.length) :: caps := by
  induction s with
  | nil =>
    cases hm : matchHere re [] with
    | none => simp [FindStringSubmatch, matchAt_none hm] at h
    | some r =>
      exact ⟨[], [], r.1, r.2, rfl, hm, FindStringSubmatch_of_matchHere hm⟩
  | cons c s ih =>
    cases hm : matchHere re (c :: s) with
    | some r =>
      exact ⟨[], c :: s, r.1, r.2, rfl, hm, FindStringSubmatch_of_matchHere hm⟩
    | none =>
      have hs : FindStringSubmatch re (c :: s) = FindStringSubmatch re s := by
        simp [FindStringSubmatch, matchAt_none hm]
      rw [hs] at h
      obtain ⟨pre, t, caps, rest, h1, h2, h3⟩ := ih h
      exact ⟨c :: pre, t, caps, rest, by simp [h1], h2, by rw [hs, h3]⟩

/-! ## The card-line pattern -/

theorem matchHere_nil (s : GoString) : matchHere [] s = some ([], s) := by
  cases s <;> rfl

theorem matchHere_lit (l : GoString) (re : Regexp) (s : GoString) :
    matchHere (Item.lit l :: re) s =
      match stripLit l s with
      | some s1 => matchHere re s1
      | none => none := by
  rw [matchHere]

theorem matchHere_capPlus (cls : Char → Bool) (re : Regexp) (s : GoString) :
    matchHere (Item.capPlus cls :: re) s = plusLoop cls (matchHere re) [] s := by
  rw [matchHere]

theorem matchHere_lit_some {l : GoString} {re : Regexp} {s : GoString}
    {r : List GoString × GoString} (h : matchHere (Item.lit l :: re) s = some r) :
    ∃ s1, s = l ++ s1 ∧ matchHere re s1 = some r := by
  rw [matchHere_lit] at h
  split at h
  · next s1 hs => exact ⟨s1, stripLit_some hs, h⟩
  · cases h

theorem matchHere_lit_append (l : GoString) (re : Regexp) (s : GoString) :
    matchHere (Item.lit l :: re) (l ++ s) = matchHere re s := by
  rw [matchHere_lit, stripLit_append]

/-- Soundness of the card-line pattern: a match is digits, a space and a
non-empty run without line feed. -/
theorem matchHere_CardListReg_some {t : GoString} {r : List GoString × GoString}
    (h : matchHere CardListReg t = some r) :
    ∃ ds nm, ds ≠ [] ∧ (∀ c ∈ ds, isDigit c = true) ∧ nm ≠ [] ∧
      (∀ c ∈ nm, isDot c = true) ∧ t = ds ++ ' ' :: (nm ++ r.2) ∧ r.1 = [ds, nm] := by
  rw [CardListReg, matchHere_capPlus] at h
  obtain ⟨ds, tail, caps, hds, hdig, ht, hk, hr⟩ := plusLoop_some h
  obtain ⟨s1, hs1, hk1⟩ := matchHere_lit_some hk
  rw [matchHere_capPlus] at hk1
  obtain ⟨nm, tail2, caps2, hnm, hdot, ht2, hk2, hr2⟩ := plusLoop_some hk1
  rw [matchHere_nil] at hk2
  simp only [Option.some.injEq, Prod.mk.injEq] at hk2
  simp only [List.nil_append] at hr hr2
  refine ⟨ds, nm, hds, hdig, hnm, hdot, ?_, ?_⟩
  · rw [ht, hs1, ht2, hk2.2]; rfl
  · rw [hr, hr2, ← hk2.1]

/-- The pattern matches wherever digits, a space and a character other than
line feed stand. -/
theorem matchHere_CardListReg_isSome (ds : GoString) (c : Char) (post : GoString)
    (hds : ds ≠ []) (hdig : ∀ x ∈ ds, isDigit x = true) (hc : c ≠ '\n') :
    (matchHere CardListReg (ds ++ ' ' :: c :: post)).isSome = true := by
  have hdot : isDot c = true := by simp [isDot, hc]
  have h2 := plusLoop_isSome isDot (matchHere []) [] c post hdot
    (fun t => by simp [matchHere_nil])
  cases hk : plusLoop isDot (matchHere []) [] (c :: post) with
  | none => simp [hk] at h2
  | some r =>
    have hk1 : matchHere [Item.lit " ".toList, Item.capPlus isDot] (' ' :: c :: post)
        = some (r.1, r.2) := by
      have := matchHere_lit_append " ".toList [Item.capPlus isDot] (c :: post)
      rw [matchHere_capPlus] at this
      simpa [hk] using this
    have := plusLoop_run isDigit _ ds [] _ hds hdig
      (plusLoop_cons_not _ _ _ _ _ (by decide)) hk1
    rw [CardListReg, matchHere_capPlus, this]
    rfl

/-- On a whole line COUNT NAME without line feed the groups are the count and
the entire name. -/
theorem matchHere_CardListReg_whole (ds name : GoString)
    (hds : ds ≠ []) (hdig : ∀ c ∈ ds, isDigit c = true)
    (hname : name ≠ []) (hnl : ∀ c ∈ name, c ≠ '\n') :
    matchHere CardListReg (ds ++ ' ' :: name) = some ([ds, name], []) := by
  have hdot : ∀ c ∈ name, isDot c = true := fun c hc => by simp [isDot, hnl c hc]
  have h2 := plusLoop_run isDot (matchHere []) name [] []
    hname hdot (plusLoop_nil _ _ _) (matchHere_nil [])
  simp only [List.append_nil, List.nil_append] at h2
  have hk1 : matchHere [Item.lit " ".toList, Item.capPlus isDot] (' ' :: name)
      = some ([name], []) := by
    have := matchHere_lit_append " ".toList [Item.capPlus isDot] name
    rw [matchHere_capPlus] at this
    simpa [h2] using this
  have := plusLoop_run isDigit _ ds [] _ hds hdig
    (plusLoop_cons_not _ _ _ _ _ (by decide)) hk1
  rw [CardListReg, matchHere_capPlus, this]
  rfl

theorem atoiBody_digits (ds : GoString) (hds : ds ≠ []) (hdig : ∀ c ∈ ds, isDigit c = true) :
    atoiBody ds = some (decimalValue ds) := by
  have : ds.all isDigit = true := by simpa [List.all_eq_true] using hdig
  simp [atoiBody, hds, this]

/-- On a non-empty string of digits `Atoi` is the decimal value, capped at the
largest `int`. -/
theorem Atoi_digits (ds : GoString) (hds : ds ≠ []) (hdig : ∀ c ∈ ds, isDigit c = true) :
    Atoi ds = min (decimalValue ds : Int) maxInt := by
  have hb := atoiBody_digits ds hds hdig
  have hval : (match atoiBody ds with
      | some v => if (v : Int) > maxInt then maxInt else (v : Int)
      | none => 0) = min (decimalValue ds : Int) maxInt := by
    rw [hb]
    simp only []
    split
    · next h => exact (min_eq_right (le_of_lt h)).symm
    · next h => exact (min_eq_left (not_lt.1 h)).symm
  cases ds with
  | nil => exact absurd rfl hds
  | cons d t =>
    have hd := hdig d (List.mem_cons_self _ _)
    have hminus : d ≠ '-' := by
      rintro rfl
      exact absurd hd (by decide)
    have hplus : d ≠ '+' := by
      rintro rfl
      exact absurd hd (by decide)
    unfold Atoi
    split
    · next heq => exact absurd (List.cons.inj heq).1 hminus
    · next heq => exact absurd (List.cons.inj heq).1 hplus
    · exact hval

theorem parseCardLine_of_matchHere {line : GoString} {ds nm rest : GoString}
    (hds : ds ≠ []) (hdig : ∀ c ∈ ds, isDigit c = true)
    (h : matchHere CardListReg line = some ([ds, nm], rest)) :
    parseCardLine line = some ⟨min (decimalValue ds : Int) maxInt, nm⟩ := by
  simp [parseCardLine, FindStringSubmatch_of_matchHere h, Atoi_digits ds hds hdig]

/-- A line yields a card exactly when the pattern is found in it. -/
theorem parseCardLine_isSome_iff (line : GoString) :
    (parseCardLine line).isSome = true ↔ FindStringSubmatch CardListReg line ≠ [] := by
  constructor
  · intro h hnil
    simp [parseCardLine, hnil] at h
  · intro h
    obtain ⟨pre, t, caps, rest, _, hm, hf⟩ := FindStringSubmatch_ne_nil h
    obtain ⟨ds, nm, _, _, _, _, _, hcaps⟩ := matchHere_CardListReg_some hm
    simp only at hcaps
    simp [parseCardLine, hf, hcaps]

theorem hasCardShape_iff (line : GoString) :
    FindStringSubmatch CardListReg line ≠ [] ↔ hasCardShape line := by
  constructor
  · intro h
    obtain ⟨pre, t, caps, rest, hs, hm, _⟩ := FindStringSubmatch_ne_nil h
    obtain ⟨ds, nm, hds, hdig, hnm, hdot, ht, _⟩ := matchHere_CardListReg_some hm
    cases nm with
    | nil => exact absurd rfl hnm
    | cons c nm =>
      have hc : c ≠ '\n' := by
        have := hdot c (List.mem_cons_self _ _)
        simpa [isDot] using this
      exact ⟨pre, ds, c, nm ++ rest, hds, hdig, hc, by rw [hs, ht]; simp⟩
  · rintro ⟨pre, ds, c, post, hds, hdig, hc, hline⟩ hnil
    have hnone := (FindStringSubmatch_eq_nil_iff CardListReg line).1 hnil pre
      (ds ++ ' ' :: c :: post) (by rw [hline]; simp)
    have := matchHere_CardListReg_isSome ds c post hds hdig hc
    rw [hnone] at this
    cases this

/-- C7 (as amended): a line yields a card exactly when it contains, somewhere, one
or more decimal digits, one space and a character other than line feed; and when
the whole line is one or more digits, one space and a non-empty remainder free of
line feeds, the card's name is that entire remainder and its number is the value
of the digits, capped at the largest 64-bit `int`. -/
theorem C7_parseCardLine_shape (line ds name : GoString)
    (hds : ds ≠ []) (hdig : ∀ c ∈ ds, isDigit c = true)
    (hname : name ≠ []) (hnl : ∀ c ∈ name, c ≠ '\n') :
    ((parseCardLine line).isSome = true ↔ hasCardShape line) ∧
    parseCardLine (ds ++ ' ' :: name) = some ⟨min (decimalValue ds : Int) maxInt, name⟩ :=
  ⟨(parseCardLine_isSome_iff line).trans (hasCardShape_iff line),
   parseCardLine_of_matchHere hds hdig (matchHere_CardListReg_whole ds name hds hdig hname hnl)⟩

/-- Witness of C7 (as amended) at the lines "Deck: 4 Bolt" and "4 Lightning Bolt". -/
theorem C7_parseCardLine_shape_witness :
    ("4".toList ≠ [] ∧ (∀ c ∈ "4".toList, isDigit c = true) ∧
      "Lightning Bolt".toList ≠ [] ∧ (∀ c ∈ "Lightning Bolt".toList, c ≠ '\n')) ∧
    ((parseCardLine "Deck: 4 Bolt".toList).isSome = true ↔ hasCardShape "Deck: 4 Bolt".toList) ∧
    parseCardLine ("4".toList ++ ' ' :: "Lightning Bolt".toList) =
      some ⟨min (decimalValue "4".toList : Int) maxInt, "Lightning Bolt".toList⟩ :=
  ⟨⟨by decide, by decide, by decide, by decide⟩,
   C7_parseCardLine_shape "Deck: 4 Bolt".toList "4".toList "Lightning Bolt".toList
     (by decide) (by decide) (by decide) (by decide)⟩

/-- C7 (as stated) fails: a line with text before the count yields a card although
the whole line is not of the shape COUNT NAME; a whole line of that shape whose
remainder starts with a line feed yields no card; a remainder is cut at a line
feed; and a count beyond the `int` range is not the value of its digits. -/
theorem C7_counterexample :
    (isCountName "Deck: 4 Bolt".toList = false ∧
      parseCardLine "Deck: 4 Bolt".toList = some ⟨4, "Bolt".toList⟩) ∧
    (isCountName "4 \nBolt".toList = true ∧ parseCardLine "4 \nBolt".toList = none) ∧
    (isCountName "4 Bolt\nx".toList = true ∧
      parseCardLine "4 Bolt\nx".toList = some ⟨4, "Bolt".toList⟩) ∧
    parseCardLine "9223372036854775808 Bolt".toList =
      some ⟨9223372036854775807, "Bolt".toList⟩ := by
  decide

/-! ## The event date -/

/-- Soundness of the date pattern: a match is digits, a slash and digits. -/
theorem matchHere_EventDateReg_some {t : GoString} {r : List GoString × GoString}
    (h : matchHere EventDateReg t = some r) :
    ∃ d1 d2, d1 ≠ [] ∧ (∀ c ∈ d1, isDigit c = true) ∧ d2 ≠ [] ∧
      (∀ c ∈ d2, isDigit c = true) ∧ t = d1 ++ '/' :: (d2 ++ r.2) ∧ r.1 = [d1, d2] := by
  rw [EventDateReg, matchHere_capPlus] at h
  obtain ⟨d1, tail, caps, hd1, hdig1, ht, hk, hr⟩ := plusLoop_some h
  obtain ⟨s1, hs1, hk1⟩ := matchHere_lit_some hk
  rw [matchHere_capPlus] at hk1
  obtain ⟨d2, tail2, caps2, hd2, hdig2, ht2, hk2, hr2⟩ := plusLoop_some hk1
  rw [matchHere_nil] at hk2
  simp only [Option.some.injEq, Prod.mk.injEq] at hk2
  simp only [List.nil_append] at hr hr2
  refine ⟨d1, d2, hd1, hdig1, hd2, hdig2, ?_, ?_⟩
  · rw [ht, hs1, ht2, hk2.2]; rfl
  · rw [hr, hr2, ← hk2.1]

theorem FindStringSubmatch_EventDateReg_nil {s : GoString} (h : ¬ hasDateShape s) :
    FindStringSubmatch EventDateReg s = [] := by
  by_contra hne
  obtain ⟨pre, t, caps, rest, hs, hm, _⟩ := FindStringSubmatch_ne_nil hne
  obtain ⟨d1, d2, hd1, hdig1, hd2, hdig2, ht, _⟩ := matchHere_EventDateReg_some hm
  exact h ⟨pre, d1, d2, rest, hd1, hdig1, hd2, hdig2, by rw [hs, ht]; simp⟩

theorem not_hasDateShape_of_no_slash {s : GoString} (h : '/' ∉ s) : ¬ hasDateShape s := by
  rintro ⟨pre, d1, d2, post, _, _, _, _, hs⟩
  exact h (by rw [hs]; simp)

/-- C3 (as amended): for every date text that contains no substring of the shape
digits, slash, digits, `ParseEventDate` returns the current time of the clock as
an ordinary result; its result type has no failure value. -/
theorem C3_parseEventDate_fallback (w : World) (eventDate : GoString)
    (h : ¬ hasDateShape eventDate) : ParseEventDate w eventDate = w.now := by
  simp [ParseEventDate, FindStringSubmatch_EventDateReg_nil h]

/-- Witness of C3 (as amended) at the text "garbage". -/
theorem C3_parseEventDate_fallback_witness :
    ¬ hasDateShape "garbage".toList ∧
    ParseEventDate offlineWorld "garbage".toList = offlineWorld.now :=
  ⟨not_hasDateShape_of_no_slash (by decide),
   C3_parseEventDate_fallback offlineWorld "garbage".toList
     (not_hasDateShape_of_no_slash (by decide))⟩

/-- C3 (as stated) fails: the text "garbage" has no substring of the shape digits,
slash, digits, and with the clock at noon of June 1, 2023 the parser returns
exactly that time, as an ordinary `Time`. -/
theorem C3_counterexample :
    ¬ hasDateShape "garbage".toList ∧
    ParseEventDate offlineWorld "garbage".toList =
      ⟨2023, 6, 1, 12, 0, 0, 0, Location.Local⟩ :=
  ⟨not_hasDateShape_of_no_slash (by decide), by decide⟩

/-! ## The event format -/

theorem startsWith_iff (s pre : GoString) : startsWith s pre = true ↔ pre <+: s := by
  induction s generalizing pre with
  | nil => cases pre <;> simp [startsWith]
  | cons c s ih =>
    cases pre with
    | nil => simp [startsWith]
    | cons a pre =>
      simp only [startsWith, List.cons_prefix_cons]
      split
      · next hca => simp [ih, hca]
      · next hca => simp [Ne.symm hca]

/-- `Contains` decides whether the second text is a contiguous part of the first. -/
theorem Contains_iff (s substr : GoString) : Contains s substr = true ↔ substr <:+: s := by
  induction s with
  | nil => simp [Contains, startsWith_iff, List.infix_nil]
  | cons c s ih =>
    simp only [Contains, Bool.or_eq_true, startsWith_iff, ih, List.infix_cons_iff]

/-- C4: the pattern "Sealed RTR Block" is tested before "RTR Block".  For every
event name that contains "Sealed RTR Block", `ParseEventFormat` never returns
"RTR Block", and returns "RTR Block Sealed" when the name contains none of
"Standard", "Modern", "Pauper", "Classic"; in particular
"2022 Sealed RTR Block Constructed" is classified "RTR Block Sealed". -/
theorem C4_sealed_before_block (eventName : GoString)
    (h : "Sealed RTR Block".toList <:+: eventName) :
    ParseEventFormat eventName ≠ "RTR Block".toList ∧
    (¬ "Standard".toList <:+: eventName → ¬ "Modern".toList <:+: eventName →
      ¬ "Pauper".toList <:+: eventName → ¬ "Classic".toList <:+: eventName →
      ParseEventFormat eventName = "RTR Block Sealed".toList) ∧
    ParseEventFormat "2022 Sealed RTR Block Constructed".toList = "RTR Block Sealed".toList := by
  have hs : Contains eventName "Sealed RTR Block".toList = true := (Contains_iff _ _).2 h
  refine ⟨?_, ?_, by decide⟩
  · unfold ParseEventFormat
    split_ifs <;> decide
  · intro h1 h2 h3 h4
    rw [← Contains_iff] at h1 h2 h3 h4
    unfold ParseEventFormat
    rw [if_neg h1, if_neg h2, if_neg h3, if_neg h4, if_pos hs]

/-- Witness of C4 at the name "2022 Sealed RTR Block Constructed". -/
theorem C4_sealed_before_block_witness :
    "Sealed RTR Block".toList <:+: "2022 Sealed RTR Block Constructed".toList ∧
    ParseEventFormat "2022 Sealed RTR Block Constructed".toList ≠ "RTR Block".toList ∧
    (¬ "Standard".toList <:+: "2022 Sealed RTR Block Constructed".toList →
      ¬ "Modern".toList <:+: "2022 Sealed RTR Block Constructed".toList →
      ¬ "Pauper".toList <:+: "2022 Sealed RTR Block Constructed".toList →
      ¬ "Classic".toList <:+: "2022 Sealed RTR Block Constructed".toList →
      ParseEventFormat "2022 Sealed RTR Block Constructed".toList = "RTR Block Sealed".toList) ∧
    ParseEventFormat "2022 Sealed RTR Block Constructed".toList = "RTR Block Sealed".toList :=
  ⟨(Contains_iff _ _).1 (by decide),
   C4_sealed_before_block "2022 Sealed RTR Block Constructed".toList
     ((Contains_iff _ _).1 (by decide))⟩

/-! ## All matches of a pattern -/

theorem allMatches_skip (re : Regexp) (pre : GoString) (e : Bool) (t : GoString) :
    allMatches re pre.length e (pre ++ t) = allMatches re 0 e t := by
  induction pre with
  | nil => rfl
  | cons c pre ih => simp [allMatches, ih]

/-- A position where the pattern does not match is passed over. -/
theorem allMatches_nomatch {re : Regexp} {c : Char} {s : GoString} (e : Bool)
    (h : matchHere re (c :: s) = none) :
    allMatches re 0 e (c :: s) = allMatches re 0 false s := by
  simp [allMatches, matchAt_none h]

/-- A non-empty match at the current position is delivered and the scan goes on
right after it. -/
theorem allMatches_match {re : Regexp} {m rest : GoString} {caps : List GoString} (e : Bool)
    (hm : m ≠ []) (h : matchHere re (m ++ rest) = some (caps, rest)) :
    allMatches re 0 e (m ++ rest) = (m :: caps) :: allMatches re 0 true rest := by
  cases m with
  | nil => exact absurd rfl hm
  | cons c m =>
    have h1 := matchAt_some h
    have hlen : (c :: m ++ rest).length - rest.length = m.length + 1 := by
      simp only [List.cons_append, List.length_cons, List.length_append]
      omega
    rw [hlen] at h1
    have htake : List.take (m.length + 1) (c :: m ++ rest) = c :: m :=
      List.take_left (c :: m) rest
    rw [htake] at h1
    simp only [List.cons_append] at h1 hlen ⊢
    rw [allMatches, h1]
    simp only [hlen]
    simp [allMatches_skip]

/-! ## The deck-header pattern -/

/-- Soundness of the header pattern, as far as the pilot: a match starts with the
opening tag, a run without white space and a space. -/
theorem matchHere_DeckHeaderReg_some {s : GoString} {r : List GoString × GoString}
    (h : matchHere DeckHeaderReg s = some r) :
    ∃ run tail, (∀ c ∈ run, isNonSpace c = true) ∧
      s = "<heading>".toList ++ run ++ ' ' :: tail := by
  rw [DeckHeaderReg] at h
  obtain ⟨s1, hs1, h1⟩ := matchHere_lit_some h
  rw [matchHere_capPlus] at h1
  obtain ⟨run, tail, caps, _, hrun, ht, hk, _⟩ := plusLoop_some h1
  obtain ⟨s2, hs2, _⟩ := matchHere_lit_some hk
  exact ⟨run, '(' :: s2, hrun, by rw [hs1, ht, hs2]; simp⟩

/-- The header pattern does not match at a position from which a white-space
character other than the space is reached before any space. -/
theorem matchHere_DeckHeaderReg_none (a : GoString) (rest : GoString)
    (ha : ∀ c ∈ a, isNonSpace c = true) :
    matchHere DeckHeaderReg (a ++ '\n' :: rest) = none := by
  cases hm : matchHere DeckHeaderReg (a ++ '\n' :: rest) with
  | none => rfl
  | some r =>
    obtain ⟨run, tail, hrun, hs⟩ := matchHere_DeckHeaderReg_some hm
    have hlit : ∀ c ∈ "<heading>".toList, isNonSpace c = true := by decide
    have hall : ∀ c ∈ "<heading>".toList ++ run, isNonSpace c = true := by
      intro c hc
      rcases List.mem_append.1 hc with hc | hc
      · exact hlit c hc
      · exact hrun c hc
    have := (span_unique ha hall (by decide) (by decide) hs).2.1
    exact absurd this (by decide)

/-- A well-formed heading fragment followed by a line feed is matched as a whole,
with the pilot and the result as its groups. -/
theorem matchHere_DeckHeaderReg_fragment (pilot result rest : GoString)
    (hp : pilot ≠ []) (hps : ∀ c ∈ pilot, isNonSpace c = true)
    (hr : result ≠ []) (hrs : ∀ c ∈ result, c ≠ '\n') :
    matchHere DeckHeaderReg (headingFragment pilot result ++ '\n' :: rest) =
      some ([pilot, result], '\n' :: rest) := by
  have hdot : ∀ c ∈ result, isDot c = true := fun c hc => by simp [isDot, hrs c hc]
  have hk2 : matchHere [Item.lit ")</heading>".toList] (")</heading>".toList ++ '\n' :: rest)
      = some ([], '\n' :: rest) := by
    rw [matchHere_lit_append, matchHere_nil]
  have hmore : plusLoop isDot (matchHere [Item.lit ")</heading>".toList]) ([] ++ result)
      (")</heading>".toList ++ '\n' :: rest) = none := by
    simp [plusLoop_cons, isDot, matchHere_lit, stripLit, matchHere_nil]
  have h2 := plusLoop_run isDot _ result [] _ hr hdot hmore hk2
  have hk1 : matchHere [Item.lit " (".toList, Item.capPlus isDot, Item.lit ")</heading>".toList]
      (" (".toList ++ (result ++ (")</heading>".toList ++ '\n' :: rest)))
      = some ([result], '\n' :: rest) := by
    rw [matchHere_lit_append, matchHere_capPlus, h2]
    rfl
  have h1 := plusLoop_run isNonSpace _ pilot [] _ hp hps
    (plusLoop_cons_not _ _ _ _ _ (by decide)) hk1
  have hshape : headingFragment pilot result ++ '\n' :: rest =
      "<heading>".toList ++ (pilot ++ (" (".toList ++ (result ++
        (")</heading>".toList ++ '\n' :: rest)))) := by
    simp [headingFragment]
  rw [hshape, DeckHeaderReg, matchHere_lit_append, matchHere_capPlus]
  exact h1

theorem headingFragment_ne_nil (pilot result : GoString) : headingFragment pilot result ≠ [] := by
  simp [headingFragment]

/-- A run without white space that ends at a line feed holds no match. -/
theorem allMatches_DeckHeaderReg_skip (a : GoString) (e : Bool) (rest : GoString)
    (ha : ∀ c ∈ a, isNonSpace c = true) :
    allMatches DeckHeaderReg 0 e (a ++ '\n' :: rest) = allMatches DeckHeaderReg 0 false rest := by
  induction a generalizing e with
  | nil => exact allMatches_nomatch e (matchHere_DeckHeaderReg_none [] rest (by simp))
  | cons c a ih =>
    have := matchHere_DeckHeaderReg_none (c :: a) rest ha
    rw [List.cons_append] at this ⊢
    rw [allMatches_nomatch e this]
    exact ih false (fun x hx => ha x (List.mem_cons_of_mem _ hx))

theorem deckHeadersOf_eq (page : GoString) :
    deckHeadersOf page = (allMatches DeckHeaderReg 0 false page).filterMap deckOfMatch := rfl

theorem deckOfMatch_three (whole p r : GoString) :
    deckOfMatch [whole, p, r] = some ⟨[], Time.zero, [], p, r, [], []⟩ := by
  simp [deckOfMatch]

/-- The pairs read from a page that starts with well-formed fragments, each
followed by a line feed: those fragments' pairs, then the pairs of what follows. -/
theorem headerPairs_lines (hs : List (GoString × GoString))
    (hwf : ∀ h ∈ hs, h.1 ≠ [] ∧ (∀ c ∈ h.1, isNonSpace c = true) ∧
      h.2 ≠ [] ∧ (∀ c ∈ h.2, c ≠ '\n'))
    (e : Bool) (rest : GoString) :
    ∃ e1, headerPairs ((allMatches DeckHeaderReg 0 e (pageOfLines hs ++ rest)).filterMap
        deckOfMatch) =
      hs ++ headerPairs ((allMatches DeckHeaderReg 0 e1 rest).filterMap deckOfMatch) := by
  induction hs generalizing e with
  | nil => exact ⟨e, rfl⟩
  | cons h hs ih =>
    obtain ⟨hp, hps, hr, hrs⟩ := hwf h (List.mem_cons_self _ _)
    obtain ⟨e1, he1⟩ := ih (fun x hx => hwf x (List.mem_cons_of_mem _ hx)) false
    refine ⟨e1, ?_⟩
    have hm := matchHere_DeckHeaderReg_fragment h.1 h.2 (pageOfLines hs ++ rest) hp hps hr hrs
    have hpage : pageOfLines (h :: hs) ++ rest =
        headingFragment h.1 h.2 ++ '\n' :: (pageOfLines hs ++ rest) := by
      simp [pageOfLines]
    rw [hpage, allMatches_match e (headingFragment_ne_nil _ _) hm,
      allMatches_nomatch true (matchHere_DeckHeaderReg_none [] _ (by simp))]
    rw [List.filterMap_cons, deckOfMatch_three]
    simp only [headerPairs, List.map_cons, List.cons_append]
    simp only [headerPairs] at he1
    rw [he1]

theorem allMatches_DeckHeaderReg_nil (e : Bool) : allMatches DeckHeaderReg 0 e [] = [] := by
  cases e <;> decide

/-- The pairs read from a page of well-formed fragments, each followed by a line
feed, are the fragments' pairs. -/
theorem headerPairs_deckHeadersOf_lines (hs : List (GoString × GoString))
    (hwf : ∀ h ∈ hs, h.1 ≠ [] ∧ (∀ c ∈ h.1, isNonSpace c = true) ∧
      h.2 ≠ [] ∧ (∀ c ∈ h.2, c ≠ '\n')) :
    headerPairs (deckHeadersOf (pageOfLines hs)) = hs := by
  obtain ⟨e1, h⟩ := headerPairs_lines hs hwf false []
  rw [List.append_nil] at h
  rw [deckHeadersOf_eq, h, allMatches_DeckHeaderReg_nil]
  simp [headerPairs]

theorem GetDeckHeaders_of_page {w : World} {eventID page : GoString}
    (h : GetPageContent w (WotcEventPageUrl eventID) = some page) :
    GetDeckHeaders w eventID = deckHeadersOf page := by
  simp [GetDeckHeaders, h, bodyText]

theorem pageOfLines_append (xs ys : List (GoString × GoString)) :
    pageOfLines (xs ++ ys) = pageOfLines xs ++ pageOfLines ys := by
  induction xs with
  | nil => rfl
  | cons x xs ih => simp [pageOfLines, ih]

theorem malformedFragment_nonSpace (pilot : GoString)
    (h : ∀ c ∈ pilot, isNonSpace c = true) :
    ∀ c ∈ malformedFragment pilot, isNonSpace c = true := by
  have h1 : ∀ c ∈ "<heading>".toList, isNonSpace c = true := by decide
  have h2 : ∀ c ∈ "</heading>".toList, isNonSpace c = true := by decide
  intro c hc
  simp only [malformedFragment, List.mem_append] at hc
  rcases hc with (hc | hc) | hc
  · exact h1 c hc
  · exact h c hc
  · exact h2 c hc

/-- C2 (as amended): for every sequence of (pilot, result) pairs in which each
pilot is non-empty and free of white space and each result is non-empty and free
of line feeds, `GetDeckHeaders`, on a page that is the concatenation of the
fragments `<heading>PILOT (RESULT)</heading>` each followed by a line feed,
yields exactly those pairs as (Pilot, Result), one per fragment, in document order. -/
theorem C2_deckHeaders_lines (w : World) (eventID : GoString) (hs : List (GoString × GoString))
    (hpage : GetPageContent w (WotcEventPageUrl eventID) = some (pageOfLines hs))
    (hwf : ∀ h ∈ hs, h.1 ≠ [] ∧ (∀ c ∈ h.1, isNonSpace c = true) ∧
      h.2 ≠ [] ∧ (∀ c ∈ h.2, c ≠ '\n')) :
    headerPairs (GetDeckHeaders w eventID) = hs := by
  rw [GetDeckHeaders_of_page hpage]
  exact headerPairs_deckHeadersOf_lines hs hwf

/-- Witness of C2 (as amended) at the two fragments of the specification's
example, each followed by a line feed. -/
theorem C2_deckHeaders_lines_witness :
    (GetPageContent
        (servingWorld (pageOfLines [("PlayerOne".toList, "5-0".toList),
          ("PlayerTwo".toList, "4-1".toList)]))
        (WotcEventPageUrl "ev".toList) =
      some (pageOfLines [("PlayerOne".toList, "5-0".toList),
        ("PlayerTwo".toList, "4-1".toList)]) ∧
     (∀ h ∈ [("PlayerOne".toList, "5-0".toList), ("PlayerTwo".toList, "4-1".toList)],
        h.1 ≠ [] ∧ (∀ c ∈ h.1, isNonSpace c = true) ∧ h.2 ≠ [] ∧ (∀ c ∈ h.2, c ≠ '\n'))) ∧
    headerPairs (GetDeckHeaders
        (servingWorld (pageOfLines [("PlayerOne".toList, "5-0".toList),
          ("PlayerTwo".toList, "4-1".toList)])) "ev".toList) =
      [("PlayerOne".toList, "5-0".toList), ("PlayerTwo".toList, "4-1".toList)] :=
  ⟨⟨rfl, by decide⟩,
   C2_deckHeaders_lines _ "ev".toList
     [("PlayerOne".toList, "5-0".toList), ("PlayerTwo".toList, "4-1".toList)] rfl (by decide)⟩

/-- C2 (as stated) fails on the specification's own example: on the direct
concatenation of the two fragments the greedy result group runs to the last
closing tag of the line, and a single pair comes out. -/
theorem C2_counterexample :
    pageOf [("PlayerOne".toList, "5-0".toList), ("PlayerTwo".toList, "4-1".toList)] =
      "<heading>PlayerOne (5-0)</heading><heading>PlayerTwo (4-1)</heading>".toList ∧
    headerPairs (GetDeckHeaders
        (servingWorld (pageOf [("PlayerOne".toList, "5-0".toList),
          ("PlayerTwo".toList, "4-1".toList)])) "ev".toList) =
      [("PlayerOne".toList, "5-0)</heading><heading>PlayerTwo (4-1".toList)] := by
  decide

/-- C8 (as amended): on a page whose fragments are each followed by a line feed, a
heading fragment without the parenthesized result, `<heading>PILOT</heading>`
with PILOT free of white space, inserted at any position, is skipped: the pairs
read are those of the page without it, namely the pairs of the well-formed
fragments in order. -/
theorem C8_malformed_line_skipped (before after : List (GoString × GoString))
    (bad : GoString) (hbad : ∀ c ∈ bad, isNonSpace c = true)
    (hb : ∀ h ∈ before, h.1 ≠ [] ∧ (∀ c ∈ h.1, isNonSpace c = true) ∧
      h.2 ≠ [] ∧ (∀ c ∈ h.2, c ≠ '\n'))
    (ha : ∀ h ∈ after, h.1 ≠ [] ∧ (∀ c ∈ h.1, isNonSpace c = true) ∧
      h.2 ≠ [] ∧ (∀ c ∈ h.2, c ≠ '\n')) :
    headerPairs (deckHeadersOf
        (pageOfLines before ++ (malformedFragment bad ++ '\n' :: pageOfLines after))) =
      headerPairs (deckHeadersOf (pageOfLines before ++ pageOfLines after)) ∧
    headerPairs (deckHeadersOf
        (pageOfLines before ++ (malformedFragment bad ++ '\n' :: pageOfLines after))) =
      before ++ after := by
  have hboth : ∀ h ∈ before ++ after, h.1 ≠ [] ∧ (∀ c ∈ h.1, isNonSpace c = true) ∧
      h.2 ≠ [] ∧ (∀ c ∈ h.2, c ≠ '\n') := by
    intro h hh
    rcases List.mem_append.1 hh with hh | hh
    · exact hb h hh
    · exact ha h hh
  have hright : headerPairs (deckHeadersOf (pageOfLines before ++ pageOfLines after)) =
      before ++ after := by
    rw [← pageOfLines_append]
    exact headerPairs_deckHeadersOf_lines _ hboth
  have hleft : headerPairs (deckHeadersOf
      (pageOfLines before ++ (malformedFragment bad ++ '\n' :: pageOfLines after))) =
      before ++ after := by
    obtain ⟨e1, h1⟩ := headerPairs_lines before hb false
      (malformedFragment bad ++ '\n' :: pageOfLines after)
    rw [deckHeadersOf_eq, h1,
      allMatches_DeckHeaderReg_skip _ e1 _ (malformedFragment_nonSpace bad hbad),
      ← deckHeadersOf_eq, headerPairs_deckHeadersOf_lines after ha]
  exact ⟨hleft.trans hright.symm, hleft⟩

/-- Witness of C8 (as amended): the fragment `<heading>Bad</heading>` between two
well-formed lines. -/
theorem C8_malformed_line_skipped_witness :
    ((∀ c ∈ "Bad".toList, isNonSpace c = true) ∧
     (∀ h ∈ [("PlayerOne".toList, "5-0".toList)],
        h.1 ≠ [] ∧ (∀ c ∈ h.1, isNonSpace c = true) ∧ h.2 ≠ [] ∧ (∀ c ∈ h.2, c ≠ '\n')) ∧
     (∀ h ∈ [("Good".toList, "4-1".toList)],
        h.1 ≠ [] ∧ (∀ c ∈ h.1, isNonSpace c = true) ∧ h.2 ≠ [] ∧ (∀ c ∈ h.2, c ≠ '\n'))) ∧
    headerPairs (deckHeadersOf
        (pageOfLines [("PlayerOne".toList, "5-0".toList)] ++
          (malformedFragment "Bad".toList ++ '\n' :: pageOfLines [("Good".toList, "4-1".toList)]))) =
      headerPairs (deckHeadersOf
        (pageOfLines [("PlayerOne".toList, "5-0".toList)] ++
          pageOfLines [("Good".toList, "4-1".toList)])) ∧
    headerPairs (deckHeadersOf
        (pageOfLines [("PlayerOne".toList, "5-0".toList)] ++
          (malformedFragment "Bad".toList ++ '\n' :: pageOfLines [("Good".toList, "4-1".toList)]))) =
      [("PlayerOne".toList, "5-0".toList)] ++ [("Good".toList, "4-1".toList)] :=
  ⟨⟨by decide, by decide, by decide⟩,
   C8_malformed_line_skipped [("PlayerOne".toList, "5-0".toList)]
     [("Good".toList, "4-1".toList)] "Bad".toList (by decide) (by decide) (by decide)⟩

/-- C8 (as stated) fails on the specification's own example: in
`<heading>Bad</heading><heading>Good (4-1)</heading>` the pilot group runs from
"Bad" through the next opening tag, so the pair read holds text of the malformed
fragment and differs from the pair read once that fragment is removed. -/
theorem C8_counterexample :
    malformedFragment "Bad".toList ++ pageOf [("Good".toList, "4-1".toList)] =
      "<heading>Bad</heading><heading>Good (4-1)</heading>".toList ∧
    headerPairs (deckHeadersOf
        (malformedFragment "Bad".toList ++ pageOf [("Good".toList, "4-1".toList)])) =
      [("Bad</heading><heading>Good".toList, "4-1".toList)] ∧
    headerPairs (deckHeadersOf (pageOf [("Good".toList, "4-1".toList)])) =
      [("Good".toList, "4-1".toList)] := by
  decide

/-! ## Discovery and assembly -/

theorem newEvent_EventID (w : World) (evLink : WotcEvent) :
    (newEvent w evLink).EventID = evLink.Hyperlink := rfl

theorem newEvents_ids (w : World) (knownEvents : GoString → Bool) (daysToRetrieve : Int) :
    (GetNewEvents w knownEvents daysToRetrieve).map Event.EventID =
      ((GetEventList w daysToRetrieve).filter (fun evLink => !knownEvents evLink.Hyperlink)).map
        WotcEvent.Hyperlink := by
  unfold GetNewEvents
  induction GetEventList w daysToRetrieve with
  | nil => rfl
  | cons evLink rest ih =>
    cases hk : knownEvents evLink.Hyperlink
    · simp [List.filterMap_cons, List.filter_cons, hk, ih, newEvent_EventID]
    · simp [List.filterMap_cons, List.filter_cons, hk, ih]

/-- C5: for every set of known event IDs and every remote listing, `GetNewEvents`
returns exactly one event per listing entry whose hyperlink is not in the known
set, in the listing's order, each with `EventID` equal to that entry's hyperlink,
and no event for an entry whose hyperlink is in the known set: the sequence of
the returned `EventID`s is the sequence of the hyperlinks of the unknown entries. -/
theorem C5_newEvents_unknown_entries (w : World) (knownEvents : GoString → Bool)
    (daysToRetrieve : Int) :
    (GetNewEvents w knownEvents daysToRetrieve).map Event.EventID =
      ((GetEventList w daysToRetrieve).filter (fun evLink => !knownEvents evLink.Hyperlink)).map
        WotcEvent.Hyperlink :=
  newEvents_ids w knownEvents daysToRetrieve

theorem eventDecksLoop_pilot (w : World) (ev : Event) (i : Nat) (decks : List Deck) :
    (eventDecksLoop w ev i decks).map Deck.Pilot = decks.map Deck.Pilot := by
  induction decks generalizing i with
  | nil => rfl
  | cons d decks ih => simp [eventDecksLoop, ih]

theorem eventDecksLoop_result (w : World) (ev : Event) (i : Nat) (decks : List Deck) :
    (eventDecksLoop w ev i decks).map Deck.Result = decks.map Deck.Result := by
  induction decks generalizing i with
  | nil => rfl
  | cons d decks ih => simp [eventDecksLoop, ih]

theorem eventDecksLoop_lists (w : World) (ev : Event) (i : Nat) (decks : List Deck) :
    (eventDecksLoop w ev i decks).map (fun d => (d.MainDeck, d.Sideboard)) =
      (List.range decks.length).map (fun (j : Nat) =>
        ParseDeckList (GetDeckList w ev.EventID (((i + j : Nat) : Int) + 1))) := by
  induction decks generalizing i with
  | nil => rfl
  | cons d decks ih =>
    simp only [eventDecksLoop, List.map_cons, List.length_cons, List.range_succ_eq_map,
      List.map_map, ih, Nat.add_zero]
    congr 1
    apply List.map_congr_left
    intro j _
    simp only [Function.comp]
    congr 4
    omega

/-- C6: deck numbering is the 1-based position in the header sequence.  For every
event, `GetEventDecks` returns as many decks as the page yields headers, carrying
the headers' pilots and results in header order, and the deck at position `i`
(counted from 1) has `MainDeck` and `Sideboard` equal to `ParseDeckList` of the
text fetched by `GetDeckList` for the event and the number `i`. -/
theorem C6_deck_numbering (w : World) (ev : Event) :
    (GetEventDecks w ev).length = (GetDeckHeaders w ev.EventID).length ∧
    (GetEventDecks w ev).map Deck.Pilot = (GetDeckHeaders w ev.EventID).map Deck.Pilot ∧
    (GetEventDecks w ev).map Deck.Result = (GetDeckHeaders w ev.EventID).map Deck.Result ∧
    (GetEventDecks w ev).map (fun d => (d.MainDeck, d.Sideboard)) =
      (List.range (GetDeckHeaders w ev.EventID).length).map (fun (j : Nat) =>
        ParseDeckList (GetDeckList w ev.EventID ((j : Int) + 1))) := by
  have h1 := eventDecksLoop_pilot w ev 0 (GetDeckHeaders w ev.EventID)
  have h2 := eventDecksLoop_result w ev 0 (GetDeckHeaders w ev.EventID)
  have h3 := eventDecksLoop_lists w ev 0 (GetDeckHeaders w ev.EventID)
  refine ⟨?_, h1, h2, ?_⟩
  · have := congrArg List.length h1
    simpa [GetEventDecks] using this
  · simpa [GetEventDecks] using h3

theorem GetEventDecks_of_fetch_failure (w : World) (ev : Event)
    (h : GetPageContent w (WotcEventPageUrl ev.EventID) = none) : GetEventDecks w ev = [] := by
  have : GetDeckHeaders w ev.EventID = [] := by
    simp only [GetDeckHeaders, h, bodyText, Option.getD_none]
    decide
  simp [GetEventDecks, this, eventDecksLoop]

/-- C9 (as amended): if the fetch of an event's detail page fails, the event is
assembled all the same and no error reaches the caller: for every unseen listing
entry whose detail-page fetch fails, the discovery result contains the Event of
that entry, with its format, date and `EventID`, and with zero decks. -/
theorem C9_fetch_failure_gives_empty_event (w : World) (knownEvents : GoString → Bool)
    (daysToRetrieve : Int) (evLink : WotcEvent)
    (hin : evLink ∈ GetEventList w daysToRetrieve)
    (hnew : knownEvents evLink.Hyperlink = false)
    (hfail : GetPageContent w (WotcEventPageUrl evLink.Hyperlink) = none) :
    (⟨ParseEventFormat evLink.Name, ParseEventDate w evLink.Date, evLink.Hyperlink, []⟩ : Event)
      ∈ GetNewEvents w knownEvents daysToRetrieve := by
  unfold GetNewEvents
  rw [List.mem_filterMap]
  refine ⟨evLink, hin, ?_⟩
  simp only [hnew, Bool.false_eq_true, if_false, Option.some.injEq]
  simp only [newEvent]
  rw [GetEventDecks_of_fetch_failure w _ hfail]

/-- Witness of C9 (as amended): a listing with one entry in a world where every
page request fails. -/
theorem C9_fetch_failure_gives_empty_event_witness :
    ((⟨"1/2".toList, "evt".toList, "Standard Daily".toList⟩ : WotcEvent) ∈
        GetEventList (listingWorld [⟨"1/2".toList, "evt".toList, "Standard Daily".toList⟩]) 1 ∧
      (fun _ => false) "evt".toList = false ∧
      GetPageContent (listingWorld [⟨"1/2".toList, "evt".toList, "Standard Daily".toList⟩])
        (WotcEventPageUrl "evt".toList) = none) ∧
    (⟨ParseEventFormat "Standard Daily".toList,
       ParseEventDate (listingWorld [⟨"1/2".toList, "evt".toList, "Standard Daily".toList⟩])
         "1/2".toList, "evt".toList, []⟩ : Event) ∈
      GetNewEvents (listingWorld [⟨"1/2".toList, "evt".toList, "Standard Daily".toList⟩])
        (fun _ => false) 1 :=
  ⟨⟨by simp [GetEventList, listingWorld], rfl, rfl⟩,
   C9_fetch_failure_gives_empty_event
     (listingWorld [⟨"1/2".toList, "evt".toList, "Standard Daily".toList⟩]) (fun _ => false) 1
     ⟨"1/2".toList, "evt".toList, "Standard Daily".toList⟩
     (by simp [GetEventList, listingWorld]) rfl rfl⟩

/-- C9 (as stated) fails: with one unseen listing entry whose detail-page fetch
fails, the discovery result is one Event for that entry, with zero decks. -/
theorem C9_counterexample :
    GetPageContent (listingWorld [⟨"1/2".toList, "evt".toList, "Standard Daily".toList⟩])
      (WotcEventPageUrl "evt".toList) = none ∧
    GetNewEvents (listingWorld [⟨"1/2".toList, "evt".toList, "Standard Daily".toList⟩])
      (fun _ => false) 1 =
      [⟨"Standard".toList, ⟨2023, 1, 2, 0, 0, 0, 0, Location.UTC⟩, "evt".toList, []⟩] := by
  decide

/-- C10: discovery is idempotent once the known set is updated.  For every remote
listing and every known set `K`, if `K1` holds exactly the members of `K` and the
`EventID`s of the events returned by `GetNewEvents` on `K`, then `GetNewEvents` on
`K1` with the same listing returns no event. -/
theorem C10_discovery_idempotent (w : World) (K K1 : GoString → Bool) (daysToRetrieve : Int)
    (hK1 : ∀ id, K1 id = true ↔
      (K id = true ∨ id ∈ (GetNewEvents w K daysToRetrieve).map Event.EventID)) :
    GetNewEvents w K1 daysToRetrieve = [] := by
  have hids := newEvents_ids w K daysToRetrieve
  unfold GetNewEvents
  rw [List.filterMap_eq_nil_iff]
  intro evLink hin
  have : K1 evLink.Hyperlink = true := by
    rw [hK1, hids]
    cases hk : K evLink.Hyperlink
    · right
      exact List.mem_map.2 ⟨evLink, List.mem_filter.2 ⟨hin, by simp [hk]⟩, rfl⟩
    · left; rfl
  simp [this]

theorem sampleListing_ids :
    (GetNewEvents (listingWorld sampleListing) (fun _ => false) 1).map Event.EventID =
      ["evtA".toList, "evtB".toList] := by
  decide

theorem sampleKnown_spec (id : GoString) :
    sampleKnown id = true ↔
      ((fun _ => false) id = true ∨
        id ∈ (GetNewEvents (listingWorld sampleListing) (fun _ => false) 1).map Event.EventID) := by
  rw [sampleListing_ids]
  simp [sampleKnown]

/-- Witness of C10: the two-entry listing, first with nothing known, then with
both returned events known. -/
theorem C10_discovery_idempotent_witness :
    (∀ id, sampleKnown id = true ↔
      ((fun _ => false) id = true ∨
        id ∈ (GetNewEvents (listingWorld sampleListing) (fun _ => false) 1).map
          Event.EventID)) ∧
    GetNewEvents (listingWorld sampleListing) sampleKnown 1 = [] :=
  ⟨sampleKnown_spec,
   C10_discovery_idempotent (listingWorld sampleListing) (fun _ => false) sampleKnown 1
     sampleKnown_spec⟩

/-! ## Card lists without a separator, and card counts -/

theorem mainDeckLines_of_no_blank {lines : List GoString} (h : ∀ line ∈ lines, line ≠ []) :
    mainDeckLines lines = lines := by
  unfold mainDeckLines
  rw [List.takeWhile_eq_self_iff]
  intro line hl
  simpa using h line hl

theorem sideboardLines_of_no_blank {lines : List GoString} (h : ∀ line ∈ lines, line ≠ []) :
    sideboardLines lines = [] := by
  unfold sideboardLines
  have : lines.dropWhile (fun line => decide (line ≠ [])) = [] := by
    rw [List.dropWhile_eq_nil_iff]
    intro line hl
    simpa using h line hl
  rw [this]
  rfl

theorem ParseDeckList_eq (listText : GoString) :
    ParseDeckList listText =
      ((mainDeckLines (Split listText "\r\n".toList)).filterMap parseCardLine,
       (sideboardLines (Split listText "\r\n".toList)).filterMap parseCardLine) := by
  simp [ParseDeckList, foldl_deckListStep_main]

/-- C11: for every input text that has no empty line among its "\r\n"-separated
lines, `ParseDeckList` returns an empty sideboard and a main deck holding the
cards of all matched lines, in order; in particular "4 Lightning Bolt\r\n2 Opt"
gives the two cards as main deck and an empty sideboard. -/
theorem C11_no_separator (listText : GoString)
    (h : ∀ line ∈ Split listText "\r\n".toList, line ≠ []) :
    ParseDeckList listText =
      ((Split listText "\r\n".toList).filterMap parseCardLine, []) ∧
    ParseDeckList "4 Lightning Bolt\r\n2 Opt".toList =
      ([⟨4, "Lightning Bolt".toList⟩, ⟨2, "Opt".toList⟩], []) := by
  refine ⟨?_, by decide⟩
  rw [ParseDeckList_eq, mainDeckLines_of_no_blank h, sideboardLines_of_no_blank h]
  rfl

/-- Witness of C11 at the text "4 Lightning Bolt\r\n2 Opt". -/
theorem C11_no_separator_witness :
    (∀ line ∈ Split "4 Lightning Bolt\r\n2 Opt".toList "\r\n".toList, line ≠ []) ∧
    ParseDeckList "4 Lightning Bolt\r\n2 Opt".toList =
      ((Split "4 Lightning Bolt\r\n2 Opt".toList "\r\n".toList).filterMap parseCardLine, []) ∧
    ParseDeckList "4 Lightning Bolt\r\n2 Opt".toList =
      ([⟨4, "Lightning Bolt".toList⟩, ⟨2, "Opt".toList⟩], []) :=
  ⟨by decide, C11_no_separator "4 Lightning Bolt\r\n2 Opt".toList (by decide)⟩

/-- The card read from a line carries the capped value of a non-empty string of digits. -/
theorem parseCardLine_some {line : GoString} {c : Card} (h : parseCardLine line = some c) :
    ∃ ds, ds ≠ [] ∧ (∀ x ∈ ds, isDigit x = true) ∧
      c.Number = min (decimalValue ds : Int) maxInt := by
  have hne : FindStringSubmatch CardListReg line ≠ [] := by
    intro hnil
    simp [parseCardLine, hnil] at h
  obtain ⟨pre, t, caps, rest, _, hm, hf⟩ := FindStringSubmatch_ne_nil hne
  obtain ⟨ds, nm, hds, hdig, _, _, _, hcaps⟩ := matchHere_CardListReg_some hm
  simp only at hcaps
  refine ⟨ds, hds, hdig, ?_⟩
  simp only [parseCardLine, hf, hcaps, List.length_cons, List.length_nil] at h
  simp only [Nat.reduceAdd, if_true, List.getD_cons_succ, List.getD_cons_zero,
    Option.some.injEq] at h
  rw [← h, Atoi_digits ds hds hdig]

theorem mem_ParseDeckList {listText : GoString} {c : Card}
    (h : c ∈ (ParseDeckList listText).1 ∨ c ∈ (ParseDeckList listText).2) :
    ∃ line, parseCardLine line = some c := by
  rw [ParseDeckList_eq] at h
  rcases h with h | h
  · obtain ⟨line, _, hl⟩ := List.mem_filterMap.1 h
    exact ⟨line, hl⟩
  · obtain ⟨line, _, hl⟩ := List.mem_filterMap.1 h
    exact ⟨line, hl⟩

/-- C17 (as amended): every Card carries a non-negative quantity: for every input
text, every Card in the main deck and in the sideboard returned by
`ParseDeckList` has `Number` at least 0 (a count written "0" gives 0). -/
theorem C17_card_number_nonneg (listText : GoString) (c : Card)
    (h : c ∈ (ParseDeckList listText).1 ∨ c ∈ (ParseDeckList listText).2) :
    0 ≤ c.Number := by
  obtain ⟨line, hl⟩ := mem_ParseDeckList h
  obtain ⟨ds, _, _, hnum⟩ := parseCardLine_some hl
  rw [hnum]
  exact le_min (Int.ofNat_nonneg _) (by decide)

/-- Witness of C17 (as amended) at the card of the text "0 Island". -/
theorem C17_card_number_nonneg_witness :
    ((⟨0, "Island".toList⟩ : Card) ∈ (ParseDeckList "0 Island".toList).1 ∨
      (⟨0, "Island".toList⟩ : Card) ∈ (ParseDeckList "0 Island".toList).2) ∧
    0 ≤ (⟨0, "Island".toList⟩ : Card).Number :=
  ⟨Or.inl (by decide),
   C17_card_number_nonneg "0 Island".toList ⟨0, "Island".toList⟩ (Or.inl (by decide))⟩

/-- C17 (as stated) fails: the line "0 Island" has the shape COUNT NAME, and the
card read from it has `Number` 0. -/
theorem C17_counterexample :
    ParseDeckList "0 Island".toList = ([⟨0, "Island".toList⟩], []) ∧
    ¬ (1 ≤ (⟨0, "Island".toList⟩ : Card).Number) := by
  decide

/-! ## Formats that are not recognised, and formats of formats -/

theorem ParseEventFormat_unrecognized (eventName : GoString)
    (h1 : Contains eventName "Standard".toList = false)
    (h2 : Contains eventName "Modern".toList = false)
    (h3 : Contains eventName "Pauper".toList = false)
    (h4 : Contains eventName "Classic".toList = false)
    (h5 : Contains eventName "Sealed RTR Block".toList = false)
    (h6 : Contains eventName "RTR Block".toList = false) :
    ParseEventFormat eventName = eventName := by
  simp only [ParseEventFormat, h1, h2, h3, h4, h5, h6, Bool.false_eq_true, if_false]

theorem Contains_eq_false {s substr : GoString} (h : ¬ substr <:+: s) :
    Contains s substr = false := by
  cases hc : Contains s substr with
  | false => rfl
  | true => exact absurd ((Contains_iff s substr).1 hc) h

/-- C15: for every event name that contains none of the substrings "Standard",
"Modern", "Pauper", "Classic", "Sealed RTR Block", "RTR Block",
`ParseEventFormat` returns the name unchanged; it is a total function. -/
theorem C15_unrecognized_format (eventName : GoString)
    (h1 : ¬ "Standard".toList <:+: eventName) (h2 : ¬ "Modern".toList <:+: eventName)
    (h3 : ¬ "Pauper".toList <:+: eventName) (h4 : ¬ "Classic".toList <:+: eventName)
    (h5 : ¬ "Sealed RTR Block".toList <:+: eventName)
    (h6 : ¬ "RTR Block".toList <:+: eventName) :
    ParseEventFormat eventName = eventName :=
  ParseEventFormat_unrecognized eventName (Contains_eq_false h1) (Contains_eq_false h2)
    (Contains_eq_false h3) (Contains_eq_false h4) (Contains_eq_false h5) (Contains_eq_false h6)

theorem not_infix_of_Contains {s substr : GoString} (h : Contains s substr = false) :
    ¬ substr <:+: s := by
  intro hi
  rw [(Contains_iff s substr).2 hi] at h
  cases h

/-- Witness of C15 at the name "Vintage Daily #123". -/
theorem C15_unrecognized_format_witness :
    (¬ "Standard".toList <:+: "Vintage Daily #123".toList ∧
     ¬ "Modern".toList <:+: "Vintage Daily #123".toList ∧
     ¬ "Pauper".toList <:+: "Vintage Daily #123".toList ∧
     ¬ "Classic".toList <:+: "Vintage Daily #123".toList ∧
     ¬ "Sealed RTR Block".toList <:+: "Vintage Daily #123".toList ∧
     ¬ "RTR Block".toList <:+: "Vintage Daily #123".toList) ∧
    ParseEventFormat "Vintage Daily #123".toList = "Vintage Daily #123".toList :=
  ⟨⟨not_infix_of_Contains (by decide), not_infix_of_Contains (by decide),
    not_infix_of_Contains (by decide), not_infix_of_Contains (by decide),
    not_infix_of_Contains (by decide), not_infix_of_Contains (by decide)⟩,
   C15_unrecognized_format "Vintage Daily #123".toList
    (not_infix_of_Contains (by decide)) (not_infix_of_Contains (by decide))
    (not_infix_of_Contains (by decide)) (not_infix_of_Contains (by decide))
    (not_infix_of_Contains (by decide)) (not_infix_of_Contains (by decide))⟩

/-- C20 (as amended): format classification is idempotent on every event name
whose label is not "RTR Block Sealed": for such a name `n`,
`ParseEventFormat (ParseEventFormat n) = ParseEventFormat n`; the label
"RTR Block Sealed" itself is classified "RTR Block". -/
theorem C20_format_idempotent_except_sealed (n : GoString)
    (h : ParseEventFormat n ≠ "RTR Block Sealed".toList) :
    ParseEventFormat (ParseEventFormat n) = ParseEventFormat n ∧
    ParseEventFormat "RTR Block Sealed".toList = "RTR Block".toList := by
  refine ⟨?_, by decide⟩
  unfold ParseEventFormat at h ⊢
  by_cases h1 : Contains n "Standard".toList = true
  · rw [if_pos h1]; decide
  rw [if_neg h1] at h ⊢
  by_cases h2 : Contains n "Modern".toList = true
  · rw [if_pos h2]; decide
  rw [if_neg h2] at h ⊢
  by_cases h3 : Contains n "Pauper".toList = true
  · rw [if_pos h3]; decide
  rw [if_neg h3] at h ⊢
  by_cases h4 : Contains n "Classic".toList = true
  · rw [if_pos h4]; decide
  rw [if_neg h4] at h ⊢
  by_cases h5 : Contains n "Sealed RTR Block".toList = true
  · rw [if_pos h5] at h
    exact absurd rfl h
  rw [if_neg h5] at h ⊢
  by_cases h6 : Contains n "RTR Block".toList = true
  · rw [if_pos h6]; decide
  rw [if_neg h6]
  rw [if_neg h1, if_neg h2, if_neg h3, if_neg h4, if_neg h5, if_neg h6]

/-- Witness of C20 (as amended) at the name "Modern Premier #5". -/
theorem C20_format_idempotent_except_sealed_witness :
    ParseEventFormat "Modern Premier #5".toList ≠ "RTR Block Sealed".toList ∧
    ParseEventFormat (ParseEventFormat "Modern Premier #5".toList) =
      ParseEventFormat "Modern Premier #5".toList ∧
    ParseEventFormat "RTR Block Sealed".toList = "RTR Block".toList :=
  ⟨by decide, C20_format_idempotent_except_sealed "Modern Premier #5".toList (by decide)⟩

/-- C20 (as stated) fails: the name "2022 Sealed RTR Block Constructed" is
classified "RTR Block Sealed", and that label is classified "RTR Block". -/
theorem C20_counterexample :
    ParseEventFormat "2022 Sealed RTR Block Constructed".toList = "RTR Block Sealed".toList ∧
    ParseEventFormat (ParseEventFormat "2022 Sealed RTR Block Constructed".toList) =
      "RTR Block".toList ∧
    ParseEventFormat (ParseEventFormat "2022 Sealed RTR Block Constructed".toList) ≠
      ParseEventFormat "2022 Sealed RTR Block Constructed".toList := by
  decide

/-! ## Dates that are found -/

theorem daysIn_le (y : Int) (m : Nat) : daysIn y m ≤ 31 := by
  unfold daysIn
  split_ifs <;> omega

/-- On a month from 1 to 12 and a day of that month `Date` changes nothing. -/
theorem Date_valid (y : Int) (M D : Nat) (hM : 1 ≤ M ∧ M ≤ 12)
    (hD : 1 ≤ D ∧ D ≤ daysIn y M) :
    Date y (M : Int) (D : Int) = ⟨y, M, D, 0, 0, 0, 0, Location.UTC⟩ := by
  have hy : y + ((M : Int) - 1) / 12 = y := by omega
  have hm : (((M : Int) - 1) % 12).toNat + 1 = M := by omega
  have hfuel : (D : Int).natAbs + 1 = D + 1 := by simp
  have h1 : ¬ ((D : Int) < 1) := by omega
  have h2 : ¬ ((D : Int) > (daysIn y M : Nat)) := by omega
  have hD31 := daysIn_le y M
  have hsmall : (M : Int).natAbs < 2 ^ 31 ∧ (D : Int).natAbs < 2 ^ 31 := by
    simp only [Int.natAbs_ofNat]
    omega
  simp only [Date, hy, hm, hfuel, normDay, h1, h2, if_false, Int.toNat_ofNat, hsmall,
    and_self, if_true]

set_option maxRecDepth 100000 in
/-- Around the usual ranges the walk through the months and Go's own arithmetic
give the same date: checked for the clock years 2023 and 2024, every month from
0 to 14 and every day from 0 to 33. -/
theorem Date_eq_dateAbs_small :
    ∀ (y : Fin 2) (m : Fin 15) (d : Fin 34),
      Date (2023 + (y : Nat)) ((m : Nat) : Int) ((d : Nat) : Int) =
        dateAbs (2023 + (y : Nat) + (((m : Nat) : Int) - 1) / 12)
          ((((m : Nat) : Int) - 1) % 12).toNat.succ ((d : Nat) : Int) := by
  decide

/-- A month group beyond the `int` range is capped by `Atoi`, and the seconds
counted by `time.Date` then wrap at 64 bits: with the clock in 2023 the text
"99999999999999999999/1" gives October 30, 2022, 21:07:12 UTC. -/
theorem ParseEventDate_saturated_month :
    ParseEventDate offlineWorld "99999999999999999999/1".toList =
      ⟨2022, 10, 30, 21, 7, 12, 0, Location.UTC⟩ := by
  decide

/-- On a whole text digits, slash, digits the groups are the two digit strings. -/
theorem matchHere_EventDateReg_whole (d1 d2 : GoString)
    (h1 : d1 ≠ []) (hdig1 : ∀ c ∈ d1, isDigit c = true)
    (h2 : d2 ≠ []) (hdig2 : ∀ c ∈ d2, isDigit c = true) :
    matchHere EventDateReg (d1 ++ '/' :: d2) = some ([d1, d2], []) := by
  have hk2 := plusLoop_run isDigit (matchHere []) d2 [] []
    h2 hdig2 (plusLoop_nil _ _ _) (matchHere_nil [])
  simp only [List.append_nil, List.nil_append] at hk2
  have hk1 : matchHere [Item.lit "/".toList, Item.capPlus isDigit] ('/' :: d2)
      = some ([d2], []) := by
    have := matchHere_lit_append "/".toList [Item.capPlus isDigit] d2
    rw [matchHere_capPlus] at this
    simpa [hk2] using this
  have := plusLoop_run isDigit _ d1 [] _ h1 hdig1
    (plusLoop_cons_not _ _ _ _ _ (by decide)) hk1
  rw [EventDateReg, matchHere_capPlus, this]
  rfl

/-- The date parsed from a text in which the pattern is found: the month and the
day are the capped values of the two groups. -/
theorem ParseEventDate_of_groups (w : World) {s whole d1 d2 : GoString}
    (h : FindStringSubmatch EventDateReg s = [whole, d1, d2]) :
    ParseEventDate w s =
      Date w.now.Year (min (decimalValue d1 : Int) maxInt) (min (decimalValue d2 : Int) maxInt) := by
  have hne : FindStringSubmatch EventDateReg s ≠ [] := by rw [h]; simp
  obtain ⟨pre, t, caps, rest, _, hm, hf⟩ := FindStringSubmatch_ne_nil hne
  obtain ⟨e1, e2, he1, hdig1, he2, hdig2, _, hcaps⟩ := matchHere_EventDateReg_some hm
  simp only at hcaps
  rw [h, hcaps] at hf
  simp only [List.cons.injEq, and_true] at hf
  obtain ⟨_, hd1, hd2⟩ := hf
  subst hd1 hd2
  simp only [ParseEventDate, h, List.length_cons, List.length_nil, Nat.reduceAdd, if_true,
    List.getD_cons_succ, List.getD_cons_zero]
  rw [Atoi_digits d1 he1 hdig1, Atoi_digits d2 he2 hdig2]

theorem min_maxInt_of_small (n : Nat) (h : n ≤ 31) : min (n : Int) maxInt = (n : Int) := by
  apply min_eq_left
  have : (31 : Int) ≤ maxInt := by decide
  omega

/-- The date parsed from a whole text digits, slash, digits that names a month
from 1 to 12 and a day of that month. -/
theorem ParseEventDate_valid (w : World) (M D : Nat) (d1 d2 : GoString)
    (h1 : d1 ≠ []) (hdig1 : ∀ c ∈ d1, isDigit c = true) (hv1 : decimalValue d1 = M)
    (h2 : d2 ≠ []) (hdig2 : ∀ c ∈ d2, isDigit c = true) (hv2 : decimalValue d2 = D)
    (hM : 1 ≤ M ∧ M ≤ 12) (hD : 1 ≤ D ∧ D ≤ daysIn w.now.Year M) :
    ParseEventDate w (d1 ++ '/' :: d2) = ⟨w.now.Year, M, D, 0, 0, 0, 0, Location.UTC⟩ := by
  have hfind := FindStringSubmatch_of_matchHere
    (matchHere_EventDateReg_whole d1 d2 h1 hdig1 h2 hdig2)
  rw [ParseEventDate_of_groups w hfind, hv1, hv2,
    min_maxInt_of_small M (by omega),
    min_maxInt_of_small D (le_trans hD.2 (daysIn_le _ _))]
  exact Date_valid w.now.Year M D hM hD

/-- The decimal text of a number up to 31 is a non-empty string of digits with
that value. -/
theorem fmtInt_small (n : Nat) (h : n ≤ 31) :
    fmtInt (n : Int) ≠ [] ∧ (∀ c ∈ fmtInt (n : Int), isDigit c = true) ∧
      decimalValue (fmtInt (n : Int)) = n := by
  have key : ∀ k : Fin 32, fmtInt ((k : Nat) : Int) ≠ [] ∧
      (∀ c ∈ fmtInt ((k : Nat) : Int), isDigit c = true) ∧
      decimalValue (fmtInt ((k : Nat) : Int)) = (k : Nat) := by decide
  exact key ⟨n, by omega⟩

/-- C12: for every month `M` from 1 to 12 and every day `D` that exists in month
`M` of the reference year (the year of the clock), `ParseEventDate` applied to the
decimal text "M/D" returns the date with that year, month `M` and day `D`, at
00:00:00 UTC; in particular "3/15" with the clock in 2023 gives 2023-03-15. -/
theorem C12_valid_date (w : World) (M D : Nat) (hM : 1 ≤ M ∧ M ≤ 12)
    (hD : 1 ≤ D ∧ D ≤ daysIn w.now.Year M) :
    ParseEventDate w (fmtInt (M : Int) ++ '/' :: fmtInt (D : Int)) =
      ⟨w.now.Year, M, D, 0, 0, 0, 0, Location.UTC⟩ ∧
    ParseEventDate offlineWorld "3/15".toList = ⟨2023, 3, 15, 0, 0, 0, 0, Location.UTC⟩ := by
  refine ⟨?_, by decide⟩
  obtain ⟨a1, a2, a3⟩ := fmtInt_small M (by omega)
  obtain ⟨b1, b2, b3⟩ := fmtInt_small D (le_trans hD.2 (daysIn_le _ _))
  exact ParseEventDate_valid w M D _ _ a1 a2 a3 b1 b2 b3 hM hD

/-- Witness of C12 at the month 3 and the day 15, with the clock in 2023. -/
theorem C12_valid_date_witness :
    ((1 ≤ 3 ∧ 3 ≤ 12) ∧ (1 ≤ 15 ∧ 15 ≤ daysIn offlineWorld.now.Year 3)) ∧
    ParseEventDate offlineWorld (fmtInt ((3 : Nat) : Int) ++ '/' :: fmtInt ((15 : Nat) : Int)) =
      ⟨offlineWorld.now.Year, 3, 15, 0, 0, 0, 0, Location.UTC⟩ ∧
    ParseEventDate offlineWorld "3/15".toList = ⟨2023, 3, 15, 0, 0, 0, 0, Location.UTC⟩ :=
  ⟨⟨by decide, by decide⟩, C12_valid_date offlineWorld 3 15 (by decide) (by decide)⟩

/-- C18 (as amended): for every date text in which the pattern is found with a
month group whose value is from 1 to 12 and a day group whose value is a day of
that month in the reference year, the date returned by `ParseEventDate` has year
equal to the reference year (the year of the clock). -/
theorem C18_year_of_valid_date (w : World) (s whole d1 d2 : GoString)
    (hfind : FindStringSubmatch EventDateReg s = [whole, d1, d2])
    (hm : 1 ≤ decimalValue d1 ∧ decimalValue d1 ≤ 12)
    (hd : 1 ≤ decimalValue d2 ∧ decimalValue d2 ≤ daysIn w.now.Year (decimalValue d1)) :
    (ParseEventDate w s).Year = w.now.Year := by
  rw [ParseEventDate_of_groups w hfind, min_maxInt_of_small _ (by omega),
    min_maxInt_of_small _ (le_trans hd.2 (daysIn_le _ _)), Date_valid _ _ _ hm hd]

/-- Witness of C18 (as amended) at the text "Date: 3/15 (Sat)". -/
theorem C18_year_of_valid_date_witness :
    (FindStringSubmatch EventDateReg "Date: 3/15 (Sat)".toList =
        ["3/15".toList, "3".toList, "15".toList] ∧
      (1 ≤ decimalValue "3".toList ∧ decimalValue "3".toList ≤ 12) ∧
      (1 ≤ decimalValue "15".toList ∧
        decimalValue "15".toList ≤ daysIn offlineWorld.now.Year (decimalValue "3".toList))) ∧
    (ParseEventDate offlineWorld "Date: 3/15 (Sat)".toList).Year = offlineWorld.now.Year :=
  ⟨⟨by decide, by decide, by decide⟩,
   C18_year_of_valid_date offlineWorld "Date: 3/15 (Sat)".toList "3/15".toList "3".toList
     "15".toList (by decide) (by decide) (by decide)⟩

/-- C18 (as stated) fails: the texts "13/1", "12/32" and "0/5" match the pattern,
and with the clock in 2023 the dates returned lie in 2024, 2024 and 2022:
`time.Date` carries a month or day outside its range into the neighbouring year. -/
theorem C18_counterexample :
    offlineWorld.now.Year = 2023 ∧
    (FindStringSubmatch EventDateReg "13/1".toList = ["13/1".toList, "13".toList, "1".toList] ∧
      ParseEventDate offlineWorld "13/1".toList = ⟨2024, 1, 1, 0, 0, 0, 0, Location.UTC⟩) ∧
    (FindStringSubmatch EventDateReg "12/32".toList =
        ["12/32".toList, "12".toList, "32".toList] ∧
      ParseEventDate offlineWorld "12/32".toList = ⟨2024, 1, 1, 0, 0, 0, 0, Location.UTC⟩) ∧
    (FindStringSubmatch EventDateReg "0/5".toList = ["0/5".toList, "0".toList, "5".toList] ∧
      ParseEventDate offlineWorld "0/5".toList = ⟨2022, 12, 5, 0, 0, 0, 0, Location.UTC⟩) := by
  decide

/-! ## Decks of an event -/

theorem eventDecksLoop_context (w : World) (ev : Event) (i : Nat) (decks : List Deck)
    (d : Deck) (h : d ∈ eventDecksLoop w ev i decks) :
    d.Format = ev.Format ∧ d.Date = ev.Date ∧ d.EventID = ev.EventID := by
  induction decks generalizing i with
  | nil => simp [eventDecksLoop] at h
  | cons deck decks ih =>
    simp only [eventDecksLoop, List.mem_cons] at h
    rcases h with h | h
    · rw [h]; exact ⟨rfl, rfl, rfl⟩
    · exact ih (i + 1) h

theorem GetEventDecks_context (w : World) (ev : Event) (d : Deck)
    (h : d ∈ GetEventDecks w ev) :
    d.Format = ev.Format ∧ d.Date = ev.Date ∧ d.EventID = ev.EventID :=
  eventDecksLoop_context w ev 0 _ d h

/-- C13: every Deck inherits its parent's context: for every event, every Deck in
the sequence returned by `GetEventDecks` has `Format`, `Date` and `EventID` equal
to those of that event; and every Deck of every Event returned by `GetNewEvents`
has `Format`, `Date` and `EventID` equal to those of its parent Event. -/
theorem C13_deck_inherits_context (w : World) :
    (∀ (ev : Event) (d : Deck), d ∈ GetEventDecks w ev →
      d.Format = ev.Format ∧ d.Date = ev.Date ∧ d.EventID = ev.EventID) ∧
    (∀ (knownEvents : GoString → Bool) (daysToRetrieve : Int) (e : Event) (d : Deck),
      e ∈ GetNewEvents w knownEvents daysToRetrieve → d ∈ e.Decks →
      d.Format = e.Format ∧ d.Date = e.Date ∧ d.EventID = e.EventID) := by
  refine ⟨fun ev d h => GetEventDecks_context w ev d h, ?_⟩
  intro knownEvents daysToRetrieve e d h2 h3
  unfold GetNewEvents at h2
  obtain ⟨evLink, _, hev⟩ := List.mem_filterMap.1 h2
  split at hev
  · cases hev
  · simp only [Option.some.injEq] at hev
    subst hev
    exact GetEventDecks_context w
      ⟨ParseEventFormat evLink.Name, ParseEventDate w evLink.Date, evLink.Hyperlink, []⟩ d h3

/-- Witness of C13: the second deck of the three-deck event, in a world whose
listing does not decode; and the deck of the second event of a two-entry listing. -/
theorem C13_deck_inherits_context_witness :
    ((⟨"Standard".toList, ⟨2023, 1, 2, 0, 0, 0, 0, Location.UTC⟩, "ev".toList,
        "Bob".toList, "4-1".toList, [], []⟩ : Deck) ∈ GetEventDecks threeDeckWorld sampleEvent ∧
      ((⟨"Standard".toList, ⟨2023, 1, 2, 0, 0, 0, 0, Location.UTC⟩, "ev".toList,
          "Bob".toList, "4-1".toList, [], []⟩ : Deck).Format = sampleEvent.Format ∧
        (⟨"Standard".toList, ⟨2023, 1, 2, 0, 0, 0, 0, Location.UTC⟩, "ev".toList,
          "Bob".toList, "4-1".toList, [], []⟩ : Deck).Date = sampleEvent.Date ∧
        (⟨"Standard".toList, ⟨2023, 1, 2, 0, 0, 0, 0, Location.UTC⟩, "ev".toList,
          "Bob".toList, "4-1".toList, [], []⟩ : Deck).EventID = sampleEvent.EventID)) ∧
    ((⟨"Modern".toList, ⟨2023, 1, 3, 0, 0, 0, 0, Location.UTC⟩, "evtB".toList,
        [⟨"Modern".toList, ⟨2023, 1, 3, 0, 0, 0, 0, Location.UTC⟩, "evtB".toList,
          "PlayerOne".toList, "5-0".toList, [], []⟩]⟩ : Event) ∈
        GetNewEvents (fullWorld sampleListing
          (pageOfLines [("PlayerOne".toList, "5-0".toList)])) (fun _ => false) 1 ∧
      (⟨"Modern".toList, ⟨2023, 1, 3, 0, 0, 0, 0, Location.UTC⟩, "evtB".toList,
        "PlayerOne".toList, "5-0".toList, [], []⟩ : Deck) ∈
        (⟨"Modern".toList, ⟨2023, 1, 3, 0, 0, 0, 0, Location.UTC⟩, "evtB".toList,
          [⟨"Modern".toList, ⟨2023, 1, 3, 0, 0, 0, 0, Location.UTC⟩, "evtB".toList,
            "PlayerOne".toList, "5-0".toList, [], []⟩]⟩ : Event).Decks ∧
      ((⟨"Modern".toList, ⟨2023, 1, 3, 0, 0, 0, 0, Location.UTC⟩, "evtB".toList,
          "PlayerOne".toList, "5-0".toList, [], []⟩ : Deck).Format = "Modern".toList ∧
        (⟨"Modern".toList, ⟨2023, 1, 3, 0, 0, 0, 0, Location.UTC⟩, "evtB".toList,
          "PlayerOne".toList, "5-0".toList, [], []⟩ : Deck).Date =
            ⟨2023, 1, 3, 0, 0, 0, 0, Location.UTC⟩ ∧
        (⟨"Modern".toList, ⟨2023, 1, 3, 0, 0, 0, 0, Location.UTC⟩, "evtB".toList,
          "PlayerOne".toList, "5-0".toList, [], []⟩ : Deck).EventID = "evtB".toList)) :=
  ⟨⟨by decide,
    (C13_deck_inherits_context threeDeckWorld).1 sampleEvent
      ⟨"Standard".toList, ⟨2023, 1, 2, 0, 0, 0, 0, Location.UTC⟩, "ev".toList,
        "Bob".toList, "4-1".toList, [], []⟩ (by decide)⟩,
   ⟨by decide, by decide,
    (C13_deck_inherits_context
      (fullWorld sampleListing (pageOfLines [("PlayerOne".toList, "5-0".toList)]))).2
      (fun _ => false) 1
      ⟨"Modern".toList, ⟨2023, 1, 3, 0, 0, 0, 0, Location.UTC⟩, "evtB".toList,
        [⟨"Modern".toList, ⟨2023, 1, 3, 0, 0, 0, 0, Location.UTC⟩, "evtB".toList,
          "PlayerOne".toList, "5-0".toList, [], []⟩]⟩
      ⟨"Modern".toList, ⟨2023, 1, 3, 0, 0, 0, 0, Location.UTC⟩, "evtB".toList,
        "PlayerOne".toList, "5-0".toList, [], []⟩
      (by decide) (by decide)⟩⟩

theorem eventDecksLoop_getElem (w : World) (ev : Event) (i j : Nat) (decks : List Deck)
    (d : Deck) (h : (eventDecksLoop w ev i decks)[j]? = some d) :
    (d.MainDeck, d.Sideboard) =
      ParseDeckList (GetDeckList w ev.EventID (((i + j : Nat) : Int) + 1)) := by
  induction decks generalizing i j with
  | nil => simp [eventDecksLoop] at h
  | cons deck decks ih =>
    cases j with
    | zero =>
      simp only [eventDecksLoop, List.getElem?_cons_zero, Option.some.injEq] at h
      rw [← h]
      rfl
    | succ j =>
      simp only [eventDecksLoop, List.getElem?_cons_succ] at h
      have := ih (i + 1) j h
      rw [this]
      congr 4
      omega

theorem GetDeckList_of_fetch_failure {w : World} {eventID : GoString} {deckNum : Int}
    (h : GetPageContent w (WotcDeckUrl eventID deckNum) = none) :
    ParseDeckList (GetDeckList w eventID deckNum) = ([], []) := by
  simp only [GetDeckList, h, bodyText, Option.getD_none]
  decide

theorem GetEventDecks_length (w : World) (ev : Event) :
    (GetEventDecks w ev).length = (GetDeckHeaders w ev.EventID).length := by
  have := congrArg List.length (eventDecksLoop_pilot w ev 0 (GetDeckHeaders w ev.EventID))
  simpa [GetEventDecks] using this

/-- C14: a failed deck-list fetch degrades only that deck.  For every event with
`n` deck headers and every deck number `k` from 1 to `n` whose card-list fetch
fails, `GetEventDecks` still returns `n` decks, deck `k` has empty `MainDeck` and
`Sideboard`, and every deck `i` has `MainDeck` and `Sideboard` equal to
`ParseDeckList` of the text fetched for deck `i`; in the three-deck event whose
deck 2 fails, decks 1 and 3 are populated and deck 2 is empty. -/
theorem C14_deck_fetch_failure (w : World) (ev : Event) (k : Nat)
    (hk : 1 ≤ k ∧ k ≤ (GetDeckHeaders w ev.EventID).length)
    (hfail : GetPageContent w (WotcDeckUrl ev.EventID (k : Int)) = none) :
    (GetEventDecks w ev).length = (GetDeckHeaders w ev.EventID).length ∧
    (∃ d, (GetEventDecks w ev)[k - 1]? = some d ∧ d.MainDeck = [] ∧ d.Sideboard = []) ∧
    (∀ (i : Nat) (d : Deck), (GetEventDecks w ev)[i]? = some d →
      (d.MainDeck, d.Sideboard) =
        ParseDeckList (GetDeckList w ev.EventID ((i : Int) + 1))) ∧
    (GetEventDecks threeDeckWorld sampleEvent).map (fun d => (d.MainDeck, d.Sideboard)) =
      [([⟨4, "Lightning Bolt".toList⟩], []), ([], []),
       ([⟨2, "Opt".toList⟩], [⟨3, "Negate".toList⟩])] := by
  have hlen := GetEventDecks_length w ev
  have hall : ∀ (i : Nat) (d : Deck), (GetEventDecks w ev)[i]? = some d →
      (d.MainDeck, d.Sideboard) =
        ParseDeckList (GetDeckList w ev.EventID ((i : Int) + 1)) := by
    intro i d hd
    have := eventDecksLoop_getElem w ev 0 i _ d hd
    simpa using this
  refine ⟨hlen, ?_, hall, by decide⟩
  have hlt : k - 1 < (GetEventDecks w ev).length := by omega
  refine ⟨(GetEventDecks w ev)[k - 1], List.getElem?_eq_getElem hlt, ?_⟩
  have h := hall (k - 1) _ (List.getElem?_eq_getElem hlt)
  have hnum : (((k - 1 : Nat) : Int) + 1) = (k : Int) := by omega
  rw [hnum, GetDeckList_of_fetch_failure hfail] at h
  exact ⟨congrArg Prod.fst h, congrArg Prod.snd h⟩

/-- Witness of C14: the three-deck event whose deck 2 cannot be fetched. -/
theorem C14_deck_fetch_failure_witness :
    ((1 ≤ 2 ∧ 2 ≤ (GetDeckHeaders threeDeckWorld sampleEvent.EventID).length) ∧
      GetPageContent threeDeckWorld (WotcDeckUrl sampleEvent.EventID ((2 : Nat) : Int)) = none) ∧
    (GetEventDecks threeDeckWorld sampleEvent).length =
      (GetDeckHeaders threeDeckWorld sampleEvent.EventID).length ∧
    (∃ d, (GetEventDecks threeDeckWorld sampleEvent)[2 - 1]? = some d ∧
      d.MainDeck = [] ∧ d.Sideboard = []) ∧
    (∀ (i : Nat) (d : Deck), (GetEventDecks threeDeckWorld sampleEvent)[i]? = some d →
      (d.MainDeck, d.Sideboard) =
        ParseDeckList (GetDeckList threeDeckWorld sampleEvent.EventID ((i : Int) + 1))) ∧
    (GetEventDecks threeDeckWorld sampleEvent).map (fun d => (d.MainDeck, d.Sideboard)) =
      [([⟨4, "Lightning Bolt".toList⟩], []), ([], []),
       ([⟨2, "Opt".toList⟩], [⟨3, "Negate".toList⟩])] :=
  ⟨⟨by decide, by decide⟩,
   C14_deck_fetch_failure threeDeckWorld sampleEvent 2 (by decide) (by decide)⟩

/-! ## Listings that do not decode, and listings with repeated entries -/

/-- C16 (as amended): when the remote listing payload fails to decode,
`GetNewEvents` reports no failure: for every known set it returns the empty
sequence of events, which is also what a run on an empty listing returns. -/
theorem C16_decode_failure_gives_no_events (w : World) (knownEvents : GoString → Bool)
    (daysToRetrieve : Int)
    (h : w.jsonUnmarshal (bodyText (GetPageContent w (WotcEventListUrl daysToRetrieve))) = none) :
    GetNewEvents w knownEvents daysToRetrieve = [] := by
  simp [GetNewEvents, GetEventList, h]

/-- Witness of C16 (as amended): the world in which nothing decodes. -/
theorem C16_decode_failure_gives_no_events_witness :
    offlineWorld.jsonUnmarshal
      (bodyText (GetPageContent offlineWorld (WotcEventListUrl 1))) = none ∧
    GetNewEvents offlineWorld (fun _ => false) 1 = [] :=
  ⟨rfl, C16_decode_failure_gives_no_events offlineWorld (fun _ => false) 1 rfl⟩

/-- C16 (as stated) fails: a run whose listing payload does not decode and a run
whose listing decodes to no entry return the same value, the empty sequence. -/
theorem C16_counterexample :
    offlineWorld.jsonUnmarshal
      (bodyText (GetPageContent offlineWorld (WotcEventListUrl 1))) = none ∧
    (listingWorld []).jsonUnmarshal
      (bodyText (GetPageContent (listingWorld []) (WotcEventListUrl 1))) = some [] ∧
    GetNewEvents offlineWorld (fun _ => false) 1 = [] ∧
    GetNewEvents offlineWorld (fun _ => false) 1 =
      GetNewEvents (listingWorld []) (fun _ => false) 1 := by
  decide

/-- C19 (as amended): when the hyperlinks of the entries of the remote listing
are pairwise distinct, the events returned by a single `GetNewEvents` call have
pairwise distinct `EventID`s. -/
theorem C19_distinct_event_ids (w : World) (knownEvents : GoString → Bool)
    (daysToRetrieve : Int)
    (h : ((GetEventList w daysToRetrieve).map WotcEvent.Hyperlink).Nodup) :
    ((GetNewEvents w knownEvents daysToRetrieve).map Event.EventID).Nodup := by
  rw [newEvents_ids]
  exact h.sublist (List.Sublist.map _ (List.filter_sublist _))

/-- Witness of C19 (as amended): the two-entry listing. -/
theorem C19_distinct_event_ids_witness :
    ((GetEventList (listingWorld sampleListing) 1).map WotcEvent.Hyperlink).Nodup ∧
    ((GetNewEvents (listingWorld sampleListing) (fun _ => false) 1).map Event.EventID).Nodup :=
  ⟨by decide, C19_distinct_event_ids (listingWorld sampleListing) (fun _ => false) 1 (by decide)⟩

/-- C19 (as stated) fails: a listing that holds the same entry twice gives two
events with the same `EventID`. -/
theorem C19_counterexample :
    (GetNewEvents
        (listingWorld [⟨"1/2".toList, "evt".toList, "Standard Daily".toList⟩,
          ⟨"1/2".toList, "evt".toList, "Standard Daily".toList⟩])
        (fun _ => false) 1).map Event.EventID = ["evt".toList, "evt".toList] ∧
    ¬ ((GetNewEvents
        (listingWorld [⟨"1/2".toList, "evt".toList, "Standard Daily".toList⟩,
          ⟨"1/2".toList, "evt".toList, "Standard Daily".toList⟩])
        (fun _ => false) 1).map Event.EventID).Nodup := by
  decide

end MTGMeta
